import Mathlib

/-!
Verification of the IDB_lib repository (a TypeScript convenience layer over
IndexedDB).  The definitions below are a shallow embedding of the code in
`src/core/IndexedDBManager.ts` and `src/utils/helpers.ts`:

* identifiers (`normalizeId`, `isValidId`, `generateNextId`) over a model of
  JavaScript string/number values in which numbers are integral
  (identifiers in this library are integers or opaque strings; `Number(...)`
  is modelled on optional-sign decimal integer literals and the infinities,
  treating every other string as `NaN`);
* the store-level operations (`saveDataToStore`, `getDataByIdFromStore`,
  `updateDataByIdInStore`, `deleteDataFromStore`, `clearStore`,
  `addManyToStore`, `updateManyInStore`, `deleteManyFromStore`) as pure
  functions over an association-list model of the object stores, together
  with the list of events they emit;
* the completion protocol of `executeTransaction` as a state machine over
  the completion signals delivered by the host engine (unit-of-work
  success/failure, transaction commit/abort/error).
-/

set_option autoImplicit false
set_option linter.unusedVariables false

namespace IDB

/-! ## JavaScript values used as identifiers -/

/-- Model of a JavaScript number as used for identifiers: an integer, or one
of the non-finite values.  (Identifiers in this library are integral; the
fractional part plays no role in any of the functions modelled here.) -/
inductive JSNum where
  | int (n : Int)
  | nan
  | inf
  | negInf
  deriving DecidableEq, Repr

/-- A JavaScript `string | number` identifier. -/
inductive JSId where
  | str (s : String)
  | num (n : JSNum)
  deriving DecidableEq, Repr

/-- `Number.MAX_SAFE_INTEGER`. -/
def maxSafeInteger : Int := 9007199254740991

/-- The whitespace characters removed by `String.prototype.trim` (ASCII
subset). -/
def jsIsWS (c : Char) : Bool :=
  c == ' ' || c == '\t' || c == '\n' || c == '\r' || c == '\x0b' || c == '\x0c'

/-- Trim whitespace from both ends of a character list. -/
def trimChars (l : List Char) : List Char :=
  ((l.dropWhile jsIsWS).reverse.dropWhile jsIsWS).reverse

/-- Model of `String.prototype.trim`. -/
def jsTrim (s : String) : String :=
  ⟨trimChars s.data⟩

/-- The decimal digit character for `m`; used to render numbers. -/
def digitOf (m : Nat) : Char :=
  match m with
  | 0 => '0' | 1 => '1' | 2 => '2' | 3 => '3' | 4 => '4'
  | 5 => '5' | 6 => '6' | 7 => '7' | 8 => '8' | _ => '9'

/-- Decimal digit list of a natural number, most significant first. -/
def natToChars (n : Nat) : List Char :=
  if h : 10 ≤ n then natToChars (n / 10) ++ [digitOf (n % 10)]
  else [digitOf n]
decreasing_by exact Nat.div_lt_self (by omega) (by omega)

/-- Model of JavaScript `String(n)` for an integral number.  (JavaScript
switches to exponent form beyond `1e21`; both renderings round-trip through
`Number(...)`, so the plain decimal form is used throughout the model.) -/
def intToStr (n : Int) : String :=
  if n < 0 then ⟨'-' :: natToChars n.natAbs⟩ else ⟨natToChars n.natAbs⟩

/-- Rendering of a `JSNum` by `String(...)`. -/
def jsNumToString : JSNum → String
  | .int n => intToStr n
  | .nan => "NaN"
  | .inf => "Infinity"
  | .negInf => "-Infinity"

/-- Is `c` a decimal digit? -/
def isDigitCh (c : Char) : Bool :=
  48 ≤ c.toNat && c.toNat ≤ 57

/-- Value of a digit list (most significant first). -/
def digitsVal (l : List Char) : Nat :=
  l.foldl (fun a c => 10 * a + (c.toNat - 48)) 0

/-- Model of JavaScript `Number(s)` restricted to optional-sign decimal
integer literals and the infinities; every other non-empty string is `NaN`.
(`Number` itself trims whitespace and maps the empty string to `0`.) -/
def jsNumber (s : String) : JSNum :=
  let l := (jsTrim s).data
  if l.isEmpty then .int 0
  else if l = "Infinity".data ∨ l = "+Infinity".data then .inf
  else if l = "-Infinity".data then .negInf
  else
    match l with
    | '-' :: rest =>
      if rest ≠ [] ∧ rest.all isDigitCh then .int (-(digitsVal rest : Int)) else .nan
    | '+' :: rest =>
      if rest ≠ [] ∧ rest.all isDigitCh then .int (digitsVal rest) else .nan
    | _ => if l.all isDigitCh then .int (digitsVal l) else .nan

/-- `isNaN` on the number model. -/
def jsIsNaN : JSNum → Bool
  | .nan => true
  | _ => false

/-- `Number.isFinite` on the number model. -/
def jsIsFinite : JSNum → Bool
  | .int _ => true
  | _ => false

/-- The comparison `x > Number.MAX_SAFE_INTEGER` on the number model
(`NaN > x` is false). -/
def jsGtMaxSafe : JSNum → Bool
  | .int n => maxSafeInteger < n
  | .nan => false
  | .inf => true
  | .negInf => false

/-- `normalizeId` from `src/utils/helpers.ts`: trims string identifiers,
converts numeric strings to numbers when safe, and stringifies numbers
beyond `Number.MAX_SAFE_INTEGER`. -/
def normalizeId : JSId → JSId
  | .str s =>
    let trimmedId := jsTrim s
    if trimmedId = "" then .str s
    else
      let numValue := jsNumber trimmedId
      if ¬ jsIsNaN numValue then
        if jsGtMaxSafe numValue then .str trimmedId else .num numValue
      else .str trimmedId
  | .num n => if jsGtMaxSafe n then .str (jsNumToString n) else .num n

/-- A JavaScript value passed where a `string | number` identifier is
expected: `null`, `undefined`, an actual identifier, or a value of any
other type. -/
inductive IdArg where
  | jnull
  | jundef
  | jid (x : JSId)
  | jother
  deriving DecidableEq, Repr

/-- `isValidId` from `src/utils/helpers.ts`. -/
def isValidId : IdArg → Bool
  | .jnull => false
  | .jundef => false
  | .jid (.str s) => jsTrim s ≠ ""
  | .jid (.num n) => jsIsFinite n
  | .jother => false

/-- Extract the identifier from an argument already known valid (the code
casts `id as string | number` under an `isValidId` guard). -/
def idArgToJSId : IdArg → JSId
  | .jid x => x
  | _ => .str ""

/-! ## Records and object stores -/

/-- A JavaScript field value as stored in a record. -/
inductive FieldVal where
  | vstr (s : String)
  | vnum (n : JSNum)
  | vbool (b : Bool)
  | vnull
  | vundef
  deriving DecidableEq, Repr

/-- A record (`DatabaseItem`) is a JavaScript object: an association list of
field names to values, first occurrence of a key winning on lookup. -/
abbrev Record := List (String × FieldVal)

/-- Field lookup, `r[k]`; `none` models `undefined`. -/
def rlookup (r : Record) (k : String) : Option FieldVal :=
  match r with
  | [] => none
  | (k2, v) :: rest => if k2 = k then some v else rlookup rest k

/-- Property assignment `r[k] = v`: replaces the value in place when the key
is present (as object spread does), appends otherwise. -/
def rset (r : Record) (k : String) (v : FieldVal) : Record :=
  if r.any (fun kv => kv.1 = k) then
    r.map (fun kv => if kv.1 = k then (k, v) else kv)
  else r ++ [(k, v)]

/-- Object spread `\x7b...base, ...upd\x7d`: every key of `upd` overrides the
corresponding key of `base`. -/
def spread (base upd : Record) : Record :=
  upd.foldl (fun acc kv => rset acc kv.1 kv.2) base

/-- First-of-two option values; used to state field-overlay properties. -/
def optOr (a b : Option FieldVal) : Option FieldVal :=
  match a with
  | some x => some x
  | none => b

/-- An identifier stored into a record field. -/
def idToField : JSId → FieldVal
  | .str s => .vstr s
  | .num n => .vnum n

/-- A record field read back as an identifier (guarded by validity in the
code, which casts `id as string | number`). -/
def fieldToJSId : FieldVal → JSId
  | .vstr s => .str s
  | .vnum n => .num n
  | _ => .str ""

/-- `isValidId(data.id)` where `data.id` is a record field (possibly
`undefined`). -/
def isValidIdField (v : Option FieldVal) : Bool :=
  match v with
  | some (.vstr s) => jsTrim s ≠ ""
  | some (.vnum n) => jsIsFinite n
  | _ => false

/-- JavaScript `Number(x)` coercion of a record field (`Number(undefined)` is
`NaN`, `Number(null)` is `0`, booleans coerce to `0`/`1`). -/
def jsNumberOfVal : Option FieldVal → JSNum
  | none => .nan
  | some (.vstr s) => jsNumber s
  | some (.vnum n) => n
  | some (.vbool b) => .int (if b then 1 else 0)
  | some .vnull => .int 0
  | some .vundef => .nan

/-! ## generateNextId (src/utils/helpers.ts) -/

/-- The `numericIds` computed by `generateNextId`: `Number(item.id)` of every
record, keeping only the finite results. -/
def finiteNumericIds (recs : List Record) : List Int :=
  recs.filterMap (fun r =>
    match jsNumberOfVal (rlookup r "id") with
    | .int k => some k
    | _ => none)

/-- `Math.max(...ids)` over a list (guarded non-empty at the call site). -/
def listMax : List Int → Int
  | [] => 0
  | x :: xs => xs.foldl max x

/-- The loop `for i = 1..len: if !ids.includes(i) return i` of
`generateNextId`, with the iteration count made explicit. -/
def firstGapFrom (ids : List Int) (i : Nat) (fuel : Nat) : Option Int :=
  match fuel with
  | 0 => none
  | f + 1 => if ids.contains (i : Int) then firstGapFrom ids (i + 1) f else some (i : Int)

/-- `generateNextId` from `src/utils/helpers.ts`, on a list of records (the
shape `addManyToStore` calls it with).  An empty list falls through to the
raw-id branch, which returns `1`; otherwise the record branch collects the
finite numeric ids, returns `1` when there are none, else the first unused
index in `1..len` or `max + 1`.  (The source sorts `numericIds` first; the
sort affects neither membership nor the maximum and is omitted here.) -/
def generateNextId (allData : List Record) : JSId :=
  match allData with
  | [] => .num (.int 1)
  | _ =>
    let numericIds := finiteNumericIds allData
    if numericIds.isEmpty then .num (.int 1)
    else
      match firstGapFrom numericIds 1 numericIds.length with
      | some i => .num (.int i)
      | none => .num (.int (listMax numericIds + 1))

/-! ## Store map, events and errors -/

/-- Mutation events emitted through `emitEvent`: the payload is the affected
record for add/update, the normalized key for delete, nothing for clear. -/
inductive Event where
  | evAdd (r : Record)
  | evUpdate (r : Record)
  | evDelete (id : JSId)
  | evClear
  deriving DecidableEq, Repr

/-- Failure modes of the modelled operations. -/
inductive OpErr where
  | storeNotFound (msg : String)
  | invalidId (msg : String)
  | txnFailed
  deriving DecidableEq, Repr

/-- The open connection: object stores by name. -/
abbrev StoreMap := List (String × List Record)

/-- `db.objectStoreNames`. -/
def storeNames (m : StoreMap) : List String := m.map Prod.fst

/-- Contents of a named store, `none` when it does not exist. -/
def lookupStore (m : StoreMap) (sn : String) : Option (List Record) :=
  match m with
  | [] => none
  | (k, v) :: rest => if k = sn then some v else lookupStore rest sn

/-- Replace the contents of a named store. -/
def setStore (m : StoreMap) (sn : String) (recs : List Record) : StoreMap :=
  m.map (fun kv => if kv.1 = sn then (sn, recs) else kv)

/-- The key of a record under the `"id"` key path. -/
def recKey (r : Record) : Option FieldVal := rlookup r "id"

/-- `store.get(key)`. -/
def storeGet (recs : List Record) (key : JSId) : Option Record :=
  recs.find? (fun r => recKey r == some (idToField key))

/-- `store.put(r)`: replace the record with the same key, or append. -/
def storePut (recs : List Record) (r : Record) : List Record :=
  if recs.any (fun x => recKey x == recKey r) then
    recs.map (fun x => if recKey x == recKey r then r else x)
  else recs ++ [r]

/-- `store.delete(key)`: removes any record with the key; succeeds even when
no record matches. -/
def storeDelete (recs : List Record) (key : JSId) : List Record :=
  recs.filter (fun r => !(recKey r == some (idToField key)))

/-- The error message built by `executeTransaction` when a store is missing:
`Store <q><name><q> not found. Available stores: [a, b]` with `<q>` the
single-quote character. -/
def storeNotFoundMsg (storeName : String) (stores : List String) : String :=
  let q := String.singleton (Char.ofNat 39)
  "Store " ++ q ++ storeName ++ q ++ " not found. Available stores: [" ++
    String.intercalate ", " stores ++ "]"

/-- `idExistsInStore`: `store.get(id)` with `result !== undefined`. -/
def idExistsInStore (recs : List Record) (nid : JSId) : Bool :=
  (storeGet recs nid).isSome

/-! ## Store-level operations (src/core/IndexedDBManager.ts)

Each operation is a pure function from the store map to
`result × store map × emitted events`.  The `commitOk` parameter is the
terminal signal of the operation's read-write transaction: `true` for
`oncomplete`, `false` for an abort/error arriving after the individual
requests succeeded (in which case the engine rolls the writes back and the
returned promise rejects).  Events listed for `commitOk = false` are the
ones the code has already emitted from inside the transaction callback at
that point. -/

/-- Effects observable before a result is produced (claim C10 is about
these). -/
inductive DBEffect where
  | effOpenDatabase
  | effTransactionStarted (storeName : String)
  deriving DecidableEq, Repr

/-- `getDataByIdFromStore`: an invalid id short-circuits to `null` before
`openDatabase` or any transaction; otherwise a readonly transaction reads
the normalized key. -/
def getDataByIdFromStore (m : StoreMap) (sn : String) (id : IdArg) :
    Except OpErr (Option Record) × StoreMap × List DBEffect :=
  if isValidId id = false then (.ok none, m, [])
  else
    let nid := normalizeId (idArgToJSId id)
    match lookupStore m sn with
    | none => (.error (.storeNotFound (storeNotFoundMsg sn (storeNames m))), m,
        [.effOpenDatabase])
    | some recs => (.ok (storeGet recs nid), m,
        [.effOpenDatabase, .effTransactionStarted sn])

/-- `saveDataToStore`: explicit valid id → normalize, decide add-vs-update by
an existence check, put; otherwise a fresh timestamp-based id (`Date.now() +
random`, supplied here as the `autoId` parameter).  The event is emitted in
the `.then` after the transaction completes. -/
def saveDataToStore (m : StoreMap) (sn : String) (data : Record) (autoId : Int)
    (commitOk : Bool) : Except OpErr Record × StoreMap × List Event :=
  if isValidIdField (rlookup data "id") then
    match lookupStore m sn with
    | none => (.error (.storeNotFound (storeNotFoundMsg sn (storeNames m))), m, [])
    | some recs =>
      let targetId := normalizeId (fieldToJSId ((rlookup data "id").getD .vnull))
      let isUpdate := idExistsInStore recs targetId
      let newData := rset data "id" (idToField targetId)
      if commitOk then
        (.ok newData, setStore m sn (storePut recs newData),
          [if isUpdate then .evUpdate newData else .evAdd newData])
      else (.error .txnFailed, m, [])
  else
    match lookupStore m sn with
    | none => (.error (.storeNotFound (storeNotFoundMsg sn (storeNames m))), m, [])
    | some recs =>
      let newData := rset data "id" (idToField (.num (.int autoId)))
      if commitOk then
        (.ok newData, setStore m sn (storePut recs newData), [.evAdd newData])
      else (.error .txnFailed, m, [])

/-- `updateDataByIdInStore`: invalid id throws; missing record returns `null`
before any read-write transaction; otherwise the merged record
`\x7b...stored, ...upd, id: normalizedId\x7d` is put back.  The update event is
emitted inside the transaction callback at put-success, hence it is present
even when the transaction then fails. -/
def updateDataByIdInStore (m : StoreMap) (sn : String) (id : IdArg) (upd : Record)
    (commitOk : Bool) : Except OpErr (Option Record) × StoreMap × List Event :=
  if isValidId id = false then (.error (.invalidId "Invalid ID provided for update"), m, [])
  else
    let nid := normalizeId (idArgToJSId id)
    match lookupStore m sn with
    | none => (.error (.storeNotFound (storeNotFoundMsg sn (storeNames m))), m, [])
    | some recs =>
      match storeGet recs nid with
      | none => (.ok none, m, [])
      | some stored =>
        let newData := rset (spread stored upd) "id" (idToField nid)
        if commitOk then
          (.ok (some newData), setStore m sn (storePut recs newData), [.evUpdate newData])
        else (.error .txnFailed, m, [.evUpdate newData])

/-- `deleteDataFromStore`: invalid id throws; otherwise `store.delete` on the
normalized key (which succeeds whether or not a record matches) and, after
the transaction completes, a delete event carrying the key. -/
def deleteDataFromStore (m : StoreMap) (sn : String) (id : IdArg) (commitOk : Bool) :
    Except OpErr JSId × StoreMap × List Event :=
  if isValidId id = false then (.error (.invalidId "Invalid ID provided for deletion"), m, [])
  else
    let keyId := normalizeId (idArgToJSId id)
    match lookupStore m sn with
    | none => (.error (.storeNotFound (storeNotFoundMsg sn (storeNames m))), m, [])
    | some recs =>
      if commitOk then (.ok keyId, setStore m sn (storeDelete recs keyId), [.evDelete keyId])
      else (.error .txnFailed, m, [])

/-- `clearStore`: the clear event is emitted inside the transaction callback
at request success, hence present even when the transaction then fails. -/
def clearStore (m : StoreMap) (sn : String) (commitOk : Bool) :
    Except OpErr Unit × StoreMap × List Event :=
  match lookupStore m sn with
  | none => (.error (.storeNotFound (storeNotFoundMsg sn (storeNames m))), m, [])
  | some _ =>
    if commitOk then (.ok (), setStore m sn [], [.evClear])
    else (.error .txnFailed, m, [.evClear])

/-- The id-assignment loop of `addManyToStore`: explicit valid ids are
normalized and classified add-vs-update against the pre-existing ids;
otherwise `generateNextId` runs on the pre-existing records plus the batch
records processed so far (`[...allDataInStore, ...itemsToAdd]`). -/
def addManyLoop (existing : List Record) (acc : List Record) (evs : List Event) :
    List Record → List Record × List Event
  | [] => (acc, evs)
  | item :: rest =>
    if isValidIdField (rlookup item "id") then
      let targetId := normalizeId (fieldToJSId ((rlookup item "id").getD .vnull))
      let isUpdate := (existing.map recKey).contains (some (idToField targetId))
      let newData := rset item "id" (idToField targetId)
      addManyLoop existing (acc ++ [newData])
        (evs ++ [if isUpdate then .evUpdate newData else .evAdd newData]) rest
    else
      let targetId := generateNextId (existing ++ acc)
      let newData := rset item "id" (idToField targetId)
      addManyLoop existing (acc ++ [newData]) (evs ++ [.evAdd newData]) rest

/-- `addManyToStore`: one transaction reads the whole store, assigns ids,
puts every record; on success the collected events are emitted, on any
failure the boolean API returns `false` and emits nothing. -/
def addManyToStore (m : StoreMap) (sn : String) (items : List Record) (commitOk : Bool) :
    Bool × StoreMap × List Event :=
  match lookupStore m sn with
  | none => (false, m, [])
  | some recs =>
    let pair := addManyLoop recs [] [] items
    if commitOk then (true, setStore m sn (pair.1.foldl storePut recs), pair.2)
    else (false, m, [])

/-- `updateManyInStore`: puts every item, then emits one update event per
item; `false` and no events on failure. -/
def updateManyInStore (m : StoreMap) (sn : String) (items : List Record) (commitOk : Bool) :
    Bool × StoreMap × List Event :=
  match lookupStore m sn with
  | none => (false, m, [])
  | some recs =>
    if commitOk then
      (true, setStore m sn (items.foldl storePut recs), items.map Event.evUpdate)
    else (false, m, [])

/-- `deleteManyFromStore`: deletes every normalized id, then emits one delete
event per requested id; `false` and no events on failure. -/
def deleteManyFromStore (m : StoreMap) (sn : String) (ids : List JSId) (commitOk : Bool) :
    Bool × StoreMap × List Event :=
  match lookupStore m sn with
  | none => (false, m, [])
  | some recs =>
    let nids := ids.map normalizeId
    if commitOk then
      (true, setStore m sn (nids.foldl storeDelete recs), nids.map Event.evDelete)
    else (false, m, [])

/-! ## The search criterion of searchDataInStore -/

/-- JavaScript falsiness of a field value (used by `item[key] || ""`). -/
def jsFalsy : FieldVal → Bool
  | .vstr s => s = ""
  | .vnum (.int n) => n = 0
  | .vnum .nan => true
  | .vnum _ => false
  | .vbool b => !b
  | .vnull => true
  | .vundef => true

/-- `String(x)` of a field value. -/
def jsValToDisplayString : FieldVal → String
  | .vstr s => s
  | .vnum n => jsNumToString n
  | .vbool b => if b then "true" else "false"
  | .vnull => "null"
  | .vundef => "undefined"

/-- `String(item[key] || "")` as computed by `searchDataInStore`. -/
def fieldToSearchString (v : Option FieldVal) : String :=
  match v with
  | none => ""
  | some x => if jsFalsy x then "" else jsValToDisplayString x

/-- `toLowerCase` (ASCII model). -/
def lowerStr (s : String) : String := ⟨s.data.map Char.toLower⟩

/-- Does the second list start the first? -/
def startsWithChars : List Char → List Char → Bool
  | _, [] => true
  | [], _ :: _ => false
  | h :: hs, n :: ns => h == n && startsWithChars hs ns

/-- `hay.includes(needle)` on character lists. -/
def includesChars (hay needle : List Char) : Bool :=
  match hay with
  | [] => needle.isEmpty
  | _ :: rest => startsWithChars hay needle || includesChars rest needle

/-- JavaScript `String.prototype.includes`. -/
def includesStr (hay needle : String) : Bool := includesChars hay.data needle.data

/-- The `commonExactValues` list of `searchDataInStore`. -/
def commonExactValues : List String :=
  ["active", "inactive", "pending", "draft", "published", "archived"]

/-- JavaScript strict equality on field values (`NaN === NaN` is false). -/
def jsStrictEq (a b : FieldVal) : Bool :=
  match a, b with
  | .vnum .nan, _ => false
  | _, .vnum .nan => false
  | x, y => x == y

/-- One query-entry check of `searchDataInStore` (lines 468-489): null and
undefined criteria always match; strings use the dot/status-token heuristic
between substring and exact case-insensitive matching; anything else is
strict equality against the field. -/
def entryMatches (item : Record) (key : String) (value : FieldVal) : Bool :=
  match value with
  | .vundef => true
  | .vnull => true
  | .vstr v =>
    let fieldValue := fieldToSearchString (rlookup item key)
    let isDomainSearch := v.data.contains '.'
    let isLikelyExactValue := commonExactValues.contains (lowerStr v)
    if isDomainSearch && !isLikelyExactValue then
      includesStr (lowerStr fieldValue) (lowerStr v)
    else lowerStr fieldValue == lowerStr v
  | other => jsStrictEq ((rlookup item key).getD .vundef) other

/-- The record-level filter predicate of `searchDataInStore`: every query
entry must match. -/
def searchMatches (query : Record) (item : Record) : Bool :=
  query.all (fun kv => entryMatches item kv.1 kv.2)

/-- The string-criterion semantics exactly as the specification words it:
substring case-insensitive matching precisely when the value contains the
separator character and is not one of the fixed status tokens compared
case-insensitively; in every other case exact case-insensitive equality. -/
def specStringCriterion (item : Record) (key : String) (v : String) : Bool :=
  if v.data.contains '.' = true ∧ commonExactValues.contains (lowerStr v) = false then
    includesStr (lowerStr (fieldToSearchString (rlookup item key))) (lowerStr v)
  else
    lowerStr (fieldToSearchString (rlookup item key)) == lowerStr v

/-! ## The completion protocol of executeTransaction

`executeTransaction` (lines 890-971) wires four callbacks: the transaction's
`oncomplete` / `onerror` / `onabort`, and the `.then`/`.catch` of the
promise wrapping the unit-of-work callback.  The state below carries the
four mutable variables of the closure (`callbackResult`, `callbackError`,
`isCallbackDone`, `isTransactionDone`), the promise's settlement (a promise
settles at most once; late `resolve`/`reject` calls are ignored, counted
here by `settleCount`), and whether `transaction.abort()` was requested.
Engine/unit-of-work completions are delivered as a list of signals. -/

/-- The access mode, forwarded to `db.transaction` and not otherwise
inspected by the coordination logic. -/
inductive IDBMode where
  | readonly
  | readwrite
  deriving DecidableEq, Repr

/-- Rejection reasons of the promise returned by `executeTransaction`. -/
inductive JSErr where
  | unitErr (e : Nat)
  | engineErr (e : Nat)
  | abortedDefault
  | txnStartErr (e : Nat)
  | strErr (msg : String)
  deriving DecidableEq, Repr

/-- A settled promise: resolved with a value, or rejected with a reason
(`none` models `reject(null)` when `transaction.error` is null). -/
inductive Settled where
  | resolved (v : Nat)
  | rejected (r : Option JSErr)
  deriving DecidableEq, Repr

/-- Completion signals delivered to the wired callbacks. -/
inductive Signal where
  | opSuccess (v : Nat)
  | opFailure (e : Nat)
  | commitComplete
  | txnError (e : Option Nat)
  | txnAbort (e : Option Nat)
  deriving DecidableEq, Repr

/-- Is this a unit-of-work completion signal? -/
def isOpSignal : Signal → Bool
  | .opSuccess _ => true
  | .opFailure _ => true
  | _ => false

/-- The closure state of one `executeTransaction` promise. -/
structure TxState where
  settled : Option Settled
  settleCount : Nat
  callbackResult : Option Nat
  callbackError : Option Nat
  isCallbackDone : Bool
  isTransactionDone : Bool
  abortRequested : Bool
  deriving DecidableEq, Repr

/-- Initial closure state. -/
def txInit : TxState :=
  { settled := none, settleCount := 0, callbackResult := none, callbackError := none,
    isCallbackDone := false, isTransactionDone := false, abortRequested := false }

/-- `resolve(v)`: a no-op on an already settled promise. -/
def pResolve (s : TxState) (v : Nat) : TxState :=
  if s.settled.isSome then s
  else { s with settled := some (.resolved v), settleCount := s.settleCount + 1 }

/-- `reject(r)`: a no-op on an already settled promise. -/
def pReject (s : TxState) (r : Option JSErr) : TxState :=
  if s.settled.isSome then s
  else { s with settled := some (.rejected r), settleCount := s.settleCount + 1 }

/-- `checkCompletion` (lines 919-927): when both the callback and the
transaction have finished, reject with the recorded callback error if any,
else resolve with the recorded result. -/
def checkCompletion (s : TxState) : TxState :=
  if s.isCallbackDone && s.isTransactionDone then
    match s.callbackError with
    | some e => pReject s (some (.unitErr e))
    | none => pResolve s (s.callbackResult.getD 0)
  else s

/-- One signal, handled exactly as the corresponding wired callback does:
`.then` records the result and checks completion; `.catch` records the
error and requests an abort when available (checking completion only when
it is not); `oncomplete` marks the transaction done and checks completion;
`onerror` rejects with `transaction.error` as-is; `onabort` rejects with
`transaction.error || new Error("Transaction aborted")`. -/
def txStep (abortAvail : Bool) (s : TxState) : Signal → TxState
  | .opSuccess v =>
    checkCompletion { s with callbackResult := some v, isCallbackDone := true }
  | .opFailure e =>
    let s2 := { s with callbackError := some e, isCallbackDone := true }
    if abortAvail then { s2 with abortRequested := true }
    else checkCompletion s2
  | .commitComplete => checkCompletion { s with isTransactionDone := true }
  | .txnError e => pReject s (e.map JSErr.engineErr)
  | .txnAbort e => pReject s (some ((e.map JSErr.engineErr).getD .abortedDefault))

/-- Process a list of signals. -/
def txRunFrom (abortAvail : Bool) (s : TxState) : List Signal → TxState
  | [] => s
  | sig :: rest => txRunFrom abortAvail (txStep abortAvail s sig) rest

/-- A synchronous throw of the unit-of-work callback (lines 963-969):
`reject(error)` then `transaction.abort()` when available.  The `.then` and
`.catch` never attach in this case. -/
def syncThrowEntry (abortAvail : Bool) (e : Nat) : TxState :=
  let s := pReject txInit (some (.unitErr e))
  if abortAvail then { s with abortRequested := true } else s

/-- How the unit-of-work callback starts: throwing synchronously, or
returning a value/promise whose settlement arrives later as an op signal. -/
inductive CbStart where
  | syncThrow (e : Nat)
  | async
  deriving DecidableEq, Repr

/-- The observable outcome of one `executeTransaction` call. -/
structure ExecOutcome where
  txnCreated : Bool
  storesAfter : List String
  state : TxState
  deriving DecidableEq, Repr

/-- `executeTransaction` (lines 890-971): reject fast when the store is
missing (before any transaction is created — `storesAfter` records that the
store list is never modified); reject when `db.transaction` throws
(`txnStart = some e`); otherwise run the wired callbacks over the delivered
signals. -/
def executeTransaction (stores : List String) (storeName : String) (mode : IDBMode)
    (txnStart : Option Nat) (abortAvail : Bool) (cb : CbStart) (sigs : List Signal) :
    ExecOutcome :=
  if storeName ∈ stores then
    match txnStart with
    | some e =>
      { txnCreated := false, storesAfter := stores,
        state := pReject txInit (some (.txnStartErr e)) }
    | none =>
      let s0 := match cb with
        | .syncThrow e => syncThrowEntry abortAvail e
        | .async => txInit
      { txnCreated := true, storesAfter := stores, state := txRunFrom abortAvail s0 sigs }
  else
    { txnCreated := false, storesAfter := stores,
      state := pReject txInit (some (.strErr (storeNotFoundMsg storeName stores))) }

/-! ## Lemmas about trimming and decimal rendering -/

theorem trimChars_eq_rdrop (l : List Char) :
    trimChars l = (l.dropWhile jsIsWS).rdropWhile jsIsWS := rfl

theorem trimChars_idem (l : List Char) : trimChars (trimChars l) = trimChars l := by
  rw [trimChars_eq_rdrop, trimChars_eq_rdrop]
  have h1 : List.dropWhile jsIsWS ((l.dropWhile jsIsWS).rdropWhile jsIsWS)
      = (l.dropWhile jsIsWS).rdropWhile jsIsWS := by
    cases hr : (l.dropWhile jsIsWS).rdropWhile jsIsWS with
    | nil => simp
    | cons c cs =>
      obtain ⟨t, ht⟩ := List.rdropWhile_prefix jsIsWS (l.dropWhile jsIsWS)
      rw [hr] at ht
      have hne : l.dropWhile jsIsWS ≠ [] := by
        rw [← ht]; simp
      have hhead : (l.dropWhile jsIsWS).head hne = c := by simp [← ht]
      have hc := List.head_dropWhile_not jsIsWS l hne
      rw [hhead] at hc
      rw [List.dropWhile_cons_of_neg (by simp [hc])]
  rw [h1, List.rdropWhile_idempotent]

theorem trimChars_of_no_ws (l : List Char) (h : ∀ c ∈ l, jsIsWS c = false) :
    trimChars l = l := by
  rw [trimChars_eq_rdrop]
  have h1 : l.dropWhile jsIsWS = l := by
    rw [List.dropWhile_eq_self_iff]
    intro hl
    simp only [Bool.not_eq_true]
    exact h _ (l.get_mem _ hl)
  rw [h1, List.rdropWhile_eq_self_iff]
  intro hl
  simp only [Bool.not_eq_true]
  exact h _ (l.getLast_mem hl)

theorem jsTrim_idem (s : String) : jsTrim (jsTrim s) = jsTrim s := by
  show (⟨trimChars (trimChars s.data)⟩ : String) = ⟨trimChars s.data⟩
  rw [trimChars_idem]

theorem digitOf_digit (m : Nat) : isDigitCh (digitOf m) = true := by
  unfold digitOf; split <;> decide

theorem digitOf_toNat (m : Nat) (h : m < 10) : (digitOf m).toNat = 48 + m := by
  interval_cases m <;> rfl

theorem natToChars_ne_nil (n : Nat) : natToChars n ≠ [] := by
  rw [natToChars]; split <;> simp

theorem natToChars_digits (n : Nat) : ∀ c ∈ natToChars n, isDigitCh c = true := by
  induction n using Nat.strong_induction_on with
  | _ n ih =>
    rw [natToChars]
    split
    · next h =>
      intro c hc
      rcases List.mem_append.1 hc with h1 | h1
      · exact ih (n / 10) (Nat.div_lt_self (by omega) (by omega)) c h1
      · simp only [List.mem_singleton] at h1
        subst h1; exact digitOf_digit _
    · intro c hc
      simp only [List.mem_singleton] at hc
      subst hc; exact digitOf_digit _

theorem digitsVal_append_single (l : List Char) (c : Char) :
    digitsVal (l ++ [c]) = 10 * digitsVal l + (c.toNat - 48) := by
  simp [digitsVal, List.foldl_append]

theorem digitsVal_natToChars (n : Nat) : digitsVal (natToChars n) = n := by
  induction n using Nat.strong_induction_on with
  | _ n ih =>
    rw [natToChars]
    split
    · next h =>
      rw [digitsVal_append_single, ih (n / 10) (Nat.div_lt_self (by omega) (by omega))]
      rw [digitOf_toNat (n % 10) (Nat.mod_lt _ (by omega))]
      omega
    · next h =>
      simp only [digitsVal, List.foldl_cons, List.foldl_nil]
      rw [digitOf_toNat n (by omega)]
      omega

theorem digit_not_ws (c : Char) (h : isDigitCh c = true) : jsIsWS c = false := by
  simp only [isDigitCh, Bool.and_eq_true, decide_eq_true_eq] at h
  simp only [jsIsWS, Bool.or_eq_false_iff, beq_eq_false_iff_ne, ne_eq]
  refine ⟨⟨⟨⟨⟨?_, ?_⟩, ?_⟩, ?_⟩, ?_⟩, ?_⟩ <;>
    (intro hc; subst hc; revert h; decide)

theorem intToStr_no_ws (n : Int) : ∀ c ∈ (intToStr n).data, jsIsWS c = false := by
  unfold intToStr
  split
  · intro c hc
    simp only [String.data] at hc
    rcases List.mem_cons.1 hc with h1 | h1
    · subst h1; decide
    · exact digit_not_ws c (natToChars_digits _ c h1)
  · intro c hc
    simp only [String.data] at hc
    exact digit_not_ws c (natToChars_digits _ c hc)

theorem jsTrim_intToStr (n : Int) : jsTrim (intToStr n) = intToStr n := by
  show (⟨trimChars (intToStr n).data⟩ : String) = intToStr n
  rw [trimChars_of_no_ws _ (intToStr_no_ws n)]

theorem intToStr_ne_empty (n : Int) : intToStr n ≠ "" := by
  unfold intToStr
  split <;>
  · intro h
    have := congrArg String.data h
    simp only [String.data] at this
    first
      | exact List.cons_ne_nil _ _ this
      | exact natToChars_ne_nil _ this

theorem natToChars_not_mem (n : Nat) (c : Char) (hc : isDigitCh c = false) :
    c ∉ natToChars n := by
  intro hm
  have := natToChars_digits n c hm
  rw [hc] at this
  exact Bool.false_ne_true this

theorem natToChars_ne_infinity (n : Nat) : natToChars n ≠ "Infinity".data := by
  intro h
  have hI : ('I' : Char) ∈ natToChars n := by
    rw [h]; decide
  have := natToChars_digits n 'I' hI
  exact absurd this (by decide)

theorem jsNumber_intToStr (n : Int) : jsNumber (intToStr n) = .int n := by
  unfold jsNumber
  rw [jsTrim_intToStr]
  rcases lt_or_ge n 0 with hn | hn
  · have hrepr : (intToStr n).data = '-' :: natToChars n.natAbs := by
      unfold intToStr; rw [if_pos hn]
    simp only [hrepr]
    rw [if_neg (by simp)]
    rw [if_neg ?hinf]
    case hinf =>
      rintro (h | h)
      · injection h with h1 _; exact absurd h1 (by decide)
      · injection h with h1 _; exact absurd h1 (by decide)
    rw [if_neg ?hninf]
    case hninf =>
      intro h
      have h2 : natToChars n.natAbs = "Infinity".data := by
        have : ('-' :: natToChars n.natAbs) = '-' :: "Infinity".data := h
        injection this
      exact natToChars_ne_infinity _ h2
    rw [if_pos ⟨natToChars_ne_nil _, by
      rw [List.all_eq_true]; intro c hc; exact natToChars_digits _ c hc⟩]
    rw [digitsVal_natToChars]
    congr 1
    omega
  · have hrepr : (intToStr n).data = natToChars n.natAbs := by
      unfold intToStr; rw [if_neg (by omega)]
    simp only [hrepr]
    rw [if_neg (by simp [natToChars_ne_nil])]
    rw [if_neg ?hinf2]
    case hinf2 =>
      rintro (h | h)
      · exact natToChars_ne_infinity _ h
      · exact natToChars_not_mem n.natAbs '+' (by decide) (by rw [h]; decide)
    rw [if_neg ?hninf2]
    case hninf2 =>
      intro h
      exact natToChars_not_mem n.natAbs '-' (by decide) (by rw [h]; decide)
    cases hl : natToChars n.natAbs with
    | nil => exact absurd hl (natToChars_ne_nil _)
    | cons c cs =>
      split
      · next rest heq =>
        injection heq with h1 _
        refine absurd ?_ (natToChars_not_mem n.natAbs '-' (by decide))
        rw [hl, h1]
        exact List.mem_cons_self _ _
      · next rest heq =>
        injection heq with h1 _
        refine absurd ?_ (natToChars_not_mem n.natAbs '+' (by decide))
        rw [hl, h1]
        exact List.mem_cons_self _ _
      · next =>
        rw [← hl]
        rw [if_pos (by
          rw [List.all_eq_true]; intro c hc; exact natToChars_digits _ c hc)]
        rw [digitsVal_natToChars]
        congr 1
        omega

/-! ## Lemmas about normalizeId -/

theorem normalizeId_str (s : String) :
    normalizeId (.str s) =
      if jsTrim s = "" then .str s
      else if ¬ jsIsNaN (jsNumber (jsTrim s)) = true then
        (if jsGtMaxSafe (jsNumber (jsTrim s)) = true then .str (jsTrim s)
         else .num (jsNumber (jsTrim s)))
      else .str (jsTrim s) := rfl

theorem normalizeId_num (n : JSNum) :
    normalizeId (.num n) =
      if jsGtMaxSafe n = true then .str (jsNumToString n) else .num n := rfl

theorem normalizeId_idem (x : JSId) : normalizeId (normalizeId x) = normalizeId x := by
  cases x with
  | str s =>
    rw [normalizeId_str s]
    by_cases h1 : jsTrim s = ""
    · rw [if_pos h1, normalizeId_str s, if_pos h1]
    · rw [if_neg h1]
      have hti : jsTrim (jsTrim s) = jsTrim s := jsTrim_idem s
      by_cases h2 : jsIsNaN (jsNumber (jsTrim s)) = true
      · have h2n : ¬ (¬ jsIsNaN (jsNumber (jsTrim s)) = true) := by simp [h2]
        rw [if_neg h2n, normalizeId_str, hti, if_neg h1, if_neg h2n]
      · have h2p : ¬ jsIsNaN (jsNumber (jsTrim s)) = true := h2
        rw [if_pos h2p]
        by_cases h3 : jsGtMaxSafe (jsNumber (jsTrim s)) = true
        · rw [if_pos h3, normalizeId_str, hti, if_neg h1, if_pos h2p, if_pos h3]
        · rw [if_neg h3, normalizeId_num, if_neg h3]
  | num n =>
    cases n with
    | int k =>
      rw [normalizeId_num]
      by_cases hg : jsGtMaxSafe (.int k) = true
      · rw [if_pos hg]
        show normalizeId (.str (intToStr k)) = _
        rw [normalizeId_str, jsTrim_intToStr, if_neg (intToStr_ne_empty k)]
        rw [jsNumber_intToStr]
        have hnan : ¬ jsIsNaN (JSNum.int k) = true := by simp [jsIsNaN]
        rw [if_pos hnan, if_pos hg]
        rfl
      · rw [if_neg hg, normalizeId_num, if_neg hg]
    | nan => decide
    | inf => decide
    | negInf => decide

theorem normalizeId_numeric_string (n : Int) :
    normalizeId (.str (intToStr n)) = normalizeId (.num (.int n)) := by
  rw [normalizeId_str, normalizeId_num, jsTrim_intToStr, if_neg (intToStr_ne_empty n),
    jsNumber_intToStr]
  have hnan : ¬ jsIsNaN (JSNum.int n) = true := by simp [jsIsNaN]
  rw [if_pos hnan]
  show (if jsGtMaxSafe (.int n) = true then JSId.str (intToStr n)
      else .num (.int n)) = _
  by_cases hg : jsGtMaxSafe (.int n) = true
  · rw [if_pos hg, if_pos hg]
    rfl
  · rw [if_neg hg, if_neg hg]

/-- C8: `normalizeId` is idempotent — normalizing an already-normalized
identifier is a fixed point — and a numeric string and its numeric
equivalent normalize to the same key. -/
theorem normalizeId_idempotent :
    (∀ x : JSId, normalizeId (normalizeId x) = normalizeId x)
    ∧ ∀ n : Int, normalizeId (.str (intToStr n)) = normalizeId (.num (.int n)) :=
  ⟨normalizeId_idem, normalizeId_numeric_string⟩

/-! ## Basic lemmas about the promise state -/

@[simp] theorem pResolve_isCallbackDone (s : TxState) (v : Nat) :
    (pResolve s v).isCallbackDone = s.isCallbackDone := by
  unfold pResolve; split <;> rfl

@[simp] theorem pResolve_isTransactionDone (s : TxState) (v : Nat) :
    (pResolve s v).isTransactionDone = s.isTransactionDone := by
  unfold pResolve; split <;> rfl

@[simp] theorem pResolve_callbackError (s : TxState) (v : Nat) :
    (pResolve s v).callbackError = s.callbackError := by
  unfold pResolve; split <;> rfl

@[simp] theorem pResolve_abortRequested (s : TxState) (v : Nat) :
    (pResolve s v).abortRequested = s.abortRequested := by
  unfold pResolve; split <;> rfl

@[simp] theorem pReject_isCallbackDone (s : TxState) (r : Option JSErr) :
    (pReject s r).isCallbackDone = s.isCallbackDone := by
  unfold pReject; split <;> rfl

@[simp] theorem pReject_isTransactionDone (s : TxState) (r : Option JSErr) :
    (pReject s r).isTransactionDone = s.isTransactionDone := by
  unfold pReject; split <;> rfl

@[simp] theorem pReject_callbackError (s : TxState) (r : Option JSErr) :
    (pReject s r).callbackError = s.callbackError := by
  unfold pReject; split <;> rfl

@[simp] theorem pReject_abortRequested (s : TxState) (r : Option JSErr) :
    (pReject s r).abortRequested = s.abortRequested := by
  unfold pReject; split <;> rfl

@[simp] theorem checkCompletion_isCallbackDone (s : TxState) :
    (checkCompletion s).isCallbackDone = s.isCallbackDone := by
  unfold checkCompletion; split
  · split <;> simp
  · rfl

@[simp] theorem checkCompletion_isTransactionDone (s : TxState) :
    (checkCompletion s).isTransactionDone = s.isTransactionDone := by
  unfold checkCompletion; split
  · split <;> simp
  · rfl

@[simp] theorem checkCompletion_callbackError (s : TxState) :
    (checkCompletion s).callbackError = s.callbackError := by
  unfold checkCompletion; split
  · split <;> simp
  · rfl

@[simp] theorem checkCompletion_abortRequested (s : TxState) :
    (checkCompletion s).abortRequested = s.abortRequested := by
  unfold checkCompletion; split
  · split <;> simp
  · rfl

theorem pResolve_settled_isSome (s : TxState) (v : Nat) :
    (pResolve s v).settled.isSome = true := by
  unfold pResolve; split
  · next h => exact h
  · simp

theorem pReject_settled_isSome (s : TxState) (r : Option JSErr) :
    (pReject s r).settled.isSome = true := by
  unfold pReject; split
  · next h => exact h
  · simp

theorem pResolve_of_settled (s : TxState) (v : Nat) (h : s.settled.isSome = true) :
    pResolve s v = s := by
  unfold pResolve; rw [if_pos h]

theorem pReject_of_settled (s : TxState) (r : Option JSErr) (h : s.settled.isSome = true) :
    pReject s r = s := by
  unfold pReject; rw [if_pos h]

theorem checkCompletion_of_settled (s : TxState) (h : s.settled.isSome = true) :
    checkCompletion s = s := by
  unfold checkCompletion; split
  · split
    · exact pReject_of_settled _ _ h
    · exact pResolve_of_settled _ _ h
  · rfl

theorem txStep_settled_frozen (a : Bool) (s : TxState) (sig : Signal)
    (h : s.settled.isSome = true) :
    (txStep a s sig).settled = s.settled ∧ (txStep a s sig).settleCount = s.settleCount := by
  cases sig with
  | opSuccess v =>
    have hc := checkCompletion_of_settled
      { s with callbackResult := some v, isCallbackDone := true } (by exact h)
    simp only [txStep, hc]
    constructor <;> trivial
  | opFailure e =>
    cases a with
    | true =>
      simp only [txStep, if_pos rfl]
      exact ⟨rfl, rfl⟩
    | false =>
      have hc := checkCompletion_of_settled
        { s with callbackError := some e, isCallbackDone := true } (by exact h)
      simp only [txStep]
      rw [if_neg (by simp)]
      rw [hc]
      exact ⟨rfl, rfl⟩
  | commitComplete =>
    have hc := checkCompletion_of_settled
      { s with isTransactionDone := true } (by exact h)
    simp only [txStep, hc]
    constructor <;> trivial
  | txnError e =>
    have hr := pReject_of_settled s (e.map JSErr.engineErr) h
    simp only [txStep, hr]
    constructor <;> trivial
  | txnAbort e =>
    have hr := pReject_of_settled s (some ((e.map JSErr.engineErr).getD .abortedDefault)) h
    simp only [txStep, hr]
    constructor <;> trivial

theorem txRunFrom_settled_frozen (a : Bool) (sigs : List Signal) (s : TxState)
    (x : Settled) (h : s.settled = some x) :
    (txRunFrom a s sigs).settled = some x := by
  induction sigs generalizing s with
  | nil => exact h
  | cons sig rest ih =>
    show (txRunFrom a (txStep a s sig) rest).settled = some x
    apply ih
    rw [(txStep_settled_frozen a s sig (by rw [h]; rfl)).1, h]

theorem txRunFrom_isSome_mono (a : Bool) (sigs : List Signal) (s : TxState)
    (h : s.settled.isSome = true) :
    (txRunFrom a s sigs).settled.isSome = true := by
  obtain ⟨x, hx⟩ := Option.isSome_iff_exists.1 h
  rw [txRunFrom_settled_frozen a sigs s x hx]
  rfl

/-! ## Flag monotonicity and settling steps -/

theorem txStep_cbDone_mono (a : Bool) (s : TxState) (sig : Signal)
    (h : s.isCallbackDone = true) : (txStep a s sig).isCallbackDone = true := by
  cases sig <;> simp [txStep, h]
  split <;> simp [h]

theorem txStep_txnDone_mono (a : Bool) (s : TxState) (sig : Signal)
    (h : s.isTransactionDone = true) : (txStep a s sig).isTransactionDone = true := by
  cases sig <;> simp [txStep, h]
  split <;> simp [h]

theorem txStep_abortReq_mono (a : Bool) (s : TxState) (sig : Signal)
    (h : s.abortRequested = true) : (txStep a s sig).abortRequested = true := by
  cases sig <;> simp [txStep, h]
  split <;> simp [h]

theorem txRunFrom_cbDone_mono (a : Bool) (sigs : List Signal) (s : TxState)
    (h : s.isCallbackDone = true) : (txRunFrom a s sigs).isCallbackDone = true := by
  induction sigs generalizing s with
  | nil => exact h
  | cons sig rest ih => exact ih _ (txStep_cbDone_mono a s sig h)

theorem txRunFrom_txnDone_mono (a : Bool) (sigs : List Signal) (s : TxState)
    (h : s.isTransactionDone = true) : (txRunFrom a s sigs).isTransactionDone = true := by
  induction sigs generalizing s with
  | nil => exact h
  | cons sig rest ih => exact ih _ (txStep_txnDone_mono a s sig h)

theorem txRunFrom_abortReq_mono (a : Bool) (sigs : List Signal) (s : TxState)
    (h : s.abortRequested = true) : (txRunFrom a s sigs).abortRequested = true := by
  induction sigs generalizing s with
  | nil => exact h
  | cons sig rest ih => exact ih _ (txStep_abortReq_mono a s sig h)

theorem checkCompletion_settles (s : TxState) (h1 : s.isCallbackDone = true)
    (h2 : s.isTransactionDone = true) : (checkCompletion s).settled.isSome = true := by
  unfold checkCompletion
  rw [if_pos (by simp [h1, h2])]
  split
  · exact pReject_settled_isSome _ _
  · exact pResolve_settled_isSome _ _

theorem txStep_op_sets_cbDone (a : Bool) (s : TxState) (sig : Signal)
    (h : isOpSignal sig = true) : (txStep a s sig).isCallbackDone = true := by
  cases sig with
  | opSuccess v => simp [txStep]
  | opFailure e =>
    simp only [txStep]
    split <;> simp
  | commitComplete => simp [isOpSignal] at h
  | txnError e => simp [isOpSignal] at h
  | txnAbort e => simp [isOpSignal] at h

theorem txStep_commit_sets_txnDone (a : Bool) (s : TxState) :
    (txStep a s .commitComplete).isTransactionDone = true := by
  simp [txStep]

theorem txStep_commit_settles (a : Bool) (s : TxState)
    (h : s.isCallbackDone = true) : (txStep a s .commitComplete).settled.isSome = true := by
  simp only [txStep]
  exact checkCompletion_settles _ (by simp [h]) (by simp)

theorem txStep_opSuccess_settles (a : Bool) (s : TxState) (v : Nat)
    (h : s.isTransactionDone = true) :
    (txStep a s (.opSuccess v)).settled.isSome = true := by
  simp only [txStep]
  exact checkCompletion_settles _ (by simp) (by simp [h])

theorem txStep_opFailure_settles_noAbort (s : TxState) (e : Nat)
    (h : s.isTransactionDone = true) :
    (txStep false s (.opFailure e)).settled.isSome = true := by
  simp only [txStep]
  rw [if_neg (by simp)]
  exact checkCompletion_settles _ (by simp) (by simp [h])

theorem txStep_txnError_settles (a : Bool) (s : TxState) (e : Option Nat) :
    (txStep a s (.txnError e)).settled.isSome = true := by
  simp only [txStep]
  exact pReject_settled_isSome _ _

theorem txStep_txnAbort_settles (a : Bool) (s : TxState) (e : Option Nat) :
    (txStep a s (.txnAbort e)).settled.isSome = true := by
  simp only [txStep]
  exact pReject_settled_isSome _ _

/-! ## Run decomposition and membership lemmas -/

theorem txRunFrom_append (a : Bool) (l1 l2 : List Signal) (s : TxState) :
    txRunFrom a s (l1 ++ l2) = txRunFrom a (txRunFrom a s l1) l2 := by
  induction l1 generalizing s with
  | nil => rfl
  | cons sig rest ih => exact ih (txStep a s sig)

theorem txRunFrom_mem_commit (a : Bool) (sigs : List Signal) (s : TxState)
    (h : Signal.commitComplete ∈ sigs) :
    (txRunFrom a s sigs).isTransactionDone = true := by
  induction sigs generalizing s with
  | nil => cases h
  | cons sig rest ih =>
    rcases List.mem_cons.1 h with h1 | h1
    · subst h1
      exact txRunFrom_txnDone_mono a rest _ (txStep_commit_sets_txnDone a s)
    · exact ih _ h1

theorem txRunFrom_mem_op (a : Bool) (sigs : List Signal) (s : TxState)
    (sig0 : Signal) (h0 : isOpSignal sig0 = true) (h : sig0 ∈ sigs) :
    (txRunFrom a s sigs).isCallbackDone = true := by
  induction sigs generalizing s with
  | nil => cases h
  | cons sig rest ih =>
    rcases List.mem_cons.1 h with h1 | h1
    · subst h1
      exact txRunFrom_cbDone_mono a rest _ (txStep_op_sets_cbDone a s sig0 h0)
    · exact ih _ h1

theorem txRunFrom_mem_opFailure_abortReq (sigs : List Signal) (s : TxState) (e : Nat)
    (h : Signal.opFailure e ∈ sigs) :
    (txRunFrom true s sigs).abortRequested = true := by
  induction sigs generalizing s with
  | nil => cases h
  | cons sig rest ih =>
    rcases List.mem_cons.1 h with h1 | h1
    · subst h1
      refine txRunFrom_abortReq_mono true rest _ ?_
      simp [txStep]
    · exact ih _ h1

theorem txRunFrom_mem_terminal_settles (a : Bool) (sigs : List Signal) (s : TxState)
    (h : ∃ e, Signal.txnError e ∈ sigs ∨ Signal.txnAbort e ∈ sigs) :
    (txRunFrom a s sigs).settled.isSome = true := by
  obtain ⟨e, he⟩ := h
  induction sigs generalizing s with
  | nil => rcases he with h1 | h1 <;> cases h1
  | cons sig rest ih =>
    rcases he with h1 | h1
    · rcases List.mem_cons.1 h1 with h2 | h2
      · subst h2
        exact txRunFrom_isSome_mono a rest _ (txStep_txnError_settles a s e)
      · exact ih _ (Or.inl h2)
    · rcases List.mem_cons.1 h1 with h2 | h2
      · subst h2
        exact txRunFrom_isSome_mono a rest _ (txStep_txnAbort_settles a s e)
      · exact ih _ (Or.inr h2)

theorem txRunFrom_commit_after_cbDone (a : Bool) (sigs : List Signal) (s : TxState)
    (h1 : s.isCallbackDone = true) (h2 : Signal.commitComplete ∈ sigs) :
    (txRunFrom a s sigs).settled.isSome = true := by
  induction sigs generalizing s with
  | nil => cases h2
  | cons sig rest ih =>
    rcases List.mem_cons.1 h2 with h3 | h3
    · subst h3
      exact txRunFrom_isSome_mono a rest _ (txStep_commit_settles a s h1)
    · exact ih _ (txStep_cbDone_mono a s sig h1) h3

/-! ## The settle-at-most-once invariant -/

theorem pResolve_countInv (s : TxState) (v : Nat)
    (h : s.settleCount = if s.settled.isSome then 1 else 0) :
    (pResolve s v).settleCount = if (pResolve s v).settled.isSome then 1 else 0 := by
  unfold pResolve
  split
  · next hs => rw [h, if_pos hs]
  · next hs =>
    have h0 : s.settleCount = 0 := by rw [h, if_neg (by simpa using hs)]
    simp [h0]

theorem pReject_countInv (s : TxState) (r : Option JSErr)
    (h : s.settleCount = if s.settled.isSome then 1 else 0) :
    (pReject s r).settleCount = if (pReject s r).settled.isSome then 1 else 0 := by
  unfold pReject
  split
  · next hs => rw [h, if_pos hs]
  · next hs =>
    have h0 : s.settleCount = 0 := by rw [h, if_neg (by simpa using hs)]
    simp [h0]

theorem checkCompletion_countInv (s : TxState)
    (h : s.settleCount = if s.settled.isSome then 1 else 0) :
    (checkCompletion s).settleCount =
      if (checkCompletion s).settled.isSome then 1 else 0 := by
  unfold checkCompletion
  split
  · split
    · exact pReject_countInv s _ h
    · exact pResolve_countInv s _ h
  · exact h

theorem txStep_countInv (a : Bool) (s : TxState) (sig : Signal)
    (h : s.settleCount = if s.settled.isSome then 1 else 0) :
    (txStep a s sig).settleCount = if (txStep a s sig).settled.isSome then 1 else 0 := by
  cases sig with
  | opSuccess v =>
    exact checkCompletion_countInv { s with callbackResult := some v, isCallbackDone := true } h
  | opFailure e =>
    simp only [txStep]
    split
    · exact h
    · exact checkCompletion_countInv { s with callbackError := some e, isCallbackDone := true } h
  | commitComplete =>
    exact checkCompletion_countInv { s with isTransactionDone := true } h
  | txnError e => exact pReject_countInv s _ h
  | txnAbort e => exact pReject_countInv s _ h

theorem txRunFrom_countInv (a : Bool) (sigs : List Signal) (s : TxState)
    (h : s.settleCount = if s.settled.isSome then 1 else 0) :
    (txRunFrom a s sigs).settleCount =
      if (txRunFrom a s sigs).settled.isSome then 1 else 0 := by
  induction sigs generalizing s with
  | nil => exact h
  | cons sig rest ih => exact ih _ (txStep_countInv a s sig h)

/-! ## What a resolution requires -/

theorem pReject_resolved (t : TxState) (r : Option JSErr) (v : Nat)
    (h : (pReject t r).settled = some (.resolved v)) :
    t.settled = some (.resolved v) := by
  unfold pReject at h
  split at h
  · exact h
  · simp at h

theorem pResolve_resolved (t : TxState) (w v : Nat)
    (h : (pResolve t w).settled = some (.resolved v)) :
    t.settled = some (.resolved v) ∨ t.settled = none := by
  unfold pResolve at h
  split at h
  · exact Or.inl h
  · next hs => exact Or.inr (Option.not_isSome_iff_eq_none.1 (by simpa using hs))

theorem checkCompletion_resolved (t : TxState) (v : Nat)
    (h : (checkCompletion t).settled = some (.resolved v)) :
    t.settled = some (.resolved v) ∨
      (t.isCallbackDone = true ∧ t.isTransactionDone = true ∧ t.callbackError = none) := by
  unfold checkCompletion at h
  split at h
  · next hflags =>
    rw [Bool.and_eq_true] at hflags
    obtain ⟨h1, h2⟩ := hflags
    split at h
    · exact Or.inl (pReject_resolved _ _ _ h)
    · next herr =>
      rcases pResolve_resolved _ _ _ h with h3 | h3
      · exact Or.inl h3
      · exact Or.inr ⟨h1, h2, herr⟩
  · exact Or.inl h

theorem txRunFrom_resolved_requires (a : Bool) (sigs : List Signal) (s : TxState) (v : Nat)
    (h : (txRunFrom a s sigs).settled = some (.resolved v)) :
    s.settled = some (.resolved v) ∨
      ((s.isCallbackDone = true ∧ s.callbackError = none)
          ∨ (∃ w, Signal.opSuccess w ∈ sigs))
        ∧ (s.isTransactionDone = true ∨ Signal.commitComplete ∈ sigs) := by
  induction sigs generalizing s with
  | nil => exact Or.inl h
  | cons sig rest ih =>
    rcases ih (txStep a s sig) h with h1 | ⟨hA, hB⟩
    · cases sig with
      | opSuccess w =>
        simp only [txStep] at h1
        rcases checkCompletion_resolved _ _ h1 with h2 | ⟨hcb, htx, herr⟩
        · exact Or.inl h2
        · refine Or.inr ⟨Or.inr ⟨w, List.mem_cons_self _ _⟩, Or.inl ?_⟩
          simpa using htx
      | opFailure e =>
        simp only [txStep] at h1
        cases a with
        | true =>
          rw [if_pos rfl] at h1
          exact Or.inl h1
        | false =>
          rw [if_neg (by simp)] at h1
          rcases checkCompletion_resolved _ _ h1 with h2 | ⟨hcb, htx, herr⟩
          · exact Or.inl h2
          · simp at herr
      | commitComplete =>
        simp only [txStep] at h1
        rcases checkCompletion_resolved _ _ h1 with h2 | ⟨hcb, htx, herr⟩
        · exact Or.inl h2
        · refine Or.inr ⟨Or.inl ⟨by simpa using hcb, by simpa using herr⟩,
            Or.inr (List.mem_cons_self _ _)⟩
      | txnError e =>
        simp only [txStep] at h1
        exact Or.inl (pReject_resolved _ _ _ h1)
      | txnAbort e =>
        simp only [txStep] at h1
        exact Or.inl (pReject_resolved _ _ _ h1)
    · refine Or.inr ⟨?_, ?_⟩
      · rcases hA with ⟨hcb, herr⟩ | ⟨w, hw⟩
        · cases sig with
          | opSuccess w => exact Or.inr ⟨w, List.mem_cons_self _ _⟩
          | opFailure e =>
            simp only [txStep] at herr
            cases a with
            | true => rw [if_pos rfl] at herr; simp at herr
            | false =>
              rw [if_neg (by simp)] at herr
              simp at herr
          | commitComplete =>
            simp only [txStep] at hcb herr
            exact Or.inl ⟨by simpa using hcb, by simpa using herr⟩
          | txnError e =>
            simp only [txStep] at hcb herr
            exact Or.inl ⟨by simpa using hcb, by simpa using herr⟩
          | txnAbort e =>
            simp only [txStep] at hcb herr
            exact Or.inl ⟨by simpa using hcb, by simpa using herr⟩
        · exact Or.inr ⟨w, List.mem_cons_of_mem _ hw⟩
      · rcases hB with htx | hcm
        · cases sig with
          | opSuccess w =>
            simp only [txStep] at htx
            exact Or.inl (by simpa using htx)
          | opFailure e =>
            simp only [txStep] at htx
            cases a with
            | true =>
              rw [if_pos rfl] at htx
              exact Or.inl (by simpa using htx)
            | false =>
              rw [if_neg (by simp)] at htx
              exact Or.inl (by simpa using htx)
          | commitComplete => exact Or.inr (List.mem_cons_self _ _)
          | txnError e =>
            simp only [txStep] at htx
            exact Or.inl (by simpa using htx)
          | txnAbort e =>
            simp only [txStep] at htx
            exact Or.inl (by simpa using htx)
        · exact Or.inr (List.mem_cons_of_mem _ hcm)

/-! ## Entry-state facts -/

theorem txInit_countInv : txInit.settleCount = if txInit.settled.isSome then 1 else 0 := rfl

theorem syncThrowEntry_settled (a : Bool) (e : Nat) :
    (syncThrowEntry a e).settled = some (.rejected (some (.unitErr e))) := by
  cases a <;> rfl

theorem syncThrowEntry_countInv (a : Bool) (e : Nat) :
    (syncThrowEntry a e).settleCount =
      if (syncThrowEntry a e).settled.isSome then 1 else 0 := by
  cases a <;> rfl

/-- C1 counterexample: with abort available, the ordering in which the
engine reports commit completion before the unit-of-work failure leaves the
promise unsettled forever — the failure handler calls `transaction.abort()`
on a finished transaction (which fires no abort event) instead of checking
completion, so neither resolve nor reject ever runs. -/
theorem executeTransaction_commit_then_failure_never_settles :
    (executeTransaction ["items"] "items" .readwrite none true .async
        [.commitComplete, .opFailure 7]).state.settled = none
    ∧ (executeTransaction ["items"] "items" .readwrite none true .async
        [.commitComplete, .opFailure 7]).state.settleCount = 0 := by
  constructor <;> rfl

/-- C1 (amended): the promise settles at most once in every scenario, and
settles exactly once for every combination and ordering of completion
signals except the one where, with abort available, the unit-of-work
failure arrives after the commit-completed signal and no further
transaction signal follows; a synchronous throw always settles exactly
once. -/
theorem executeTransaction_settles_exactly_once_guarded :
    (∀ (stores : List String) (sn : String) (mode : IDBMode) (ts : Option Nat)
        (aa : Bool) (cb : CbStart) (sigs : List Signal),
        (executeTransaction stores sn mode ts aa cb sigs).state.settleCount ≤ 1)
    ∧ (∀ (stores : List String) (sn : String) (mode : IDBMode) (aa : Bool)
        (pre post : List Signal) (op : Signal), sn ∈ stores → isOpSignal op = true →
        ((∃ e, Signal.txnError e ∈ pre ++ op :: post
            ∨ Signal.txnAbort e ∈ pre ++ op :: post)
          ∨ Signal.commitComplete ∈ post
          ∨ (Signal.commitComplete ∈ pre ∧ ((∃ v, op = .opSuccess v) ∨ aa = false))) →
        (executeTransaction stores sn mode none aa .async
          (pre ++ op :: post)).state.settleCount = 1)
    ∧ (∀ (stores : List String) (sn : String) (mode : IDBMode) (aa : Bool) (e : Nat)
        (sigs : List Signal), sn ∈ stores →
        (executeTransaction stores sn mode none aa (.syncThrow e) sigs).state.settleCount
          = 1) := by
  refine ⟨?_, ?_, ?_⟩
  · intro stores sn mode ts aa cb sigs
    by_cases hmem : sn ∈ stores
    · simp only [executeTransaction, if_pos hmem]
      cases ts with
      | some e => simp [pReject, txInit]
      | none =>
        cases cb with
        | syncThrow e =>
          have h := txRunFrom_countInv aa sigs (syncThrowEntry aa e)
            (syncThrowEntry_countInv aa e)
          rw [h]
          split <;> omega
        | async =>
          have h := txRunFrom_countInv aa sigs txInit txInit_countInv
          rw [h]
          split <;> omega
    · simp only [executeTransaction, if_neg hmem]
      simp [pReject, txInit]
  · intro stores sn mode aa pre post op hmem hop hcond
    simp only [executeTransaction, if_pos hmem]
    have hinv := txRunFrom_countInv aa (pre ++ op :: post) txInit txInit_countInv
    have hsome : (txRunFrom aa txInit (pre ++ op :: post)).settled.isSome = true := by
      rcases hcond with ⟨e, he⟩ | hpost | ⟨hpre, hkind⟩
      · exact txRunFrom_mem_terminal_settles aa _ txInit ⟨e, he⟩
      · have hsplit : pre ++ op :: post = (pre ++ [op]) ++ post := by simp
        rw [hsplit, txRunFrom_append]
        refine txRunFrom_commit_after_cbDone aa post _ ?_ hpost
        exact txRunFrom_mem_op aa (pre ++ [op]) txInit op hop (by simp)
      · have hsplit : pre ++ op :: post = pre ++ (op :: post) := rfl
        rw [hsplit, txRunFrom_append]
        have htx : (txRunFrom aa txInit pre).isTransactionDone = true :=
          txRunFrom_mem_commit aa pre txInit hpre
        show (txRunFrom aa (txStep aa (txRunFrom aa txInit pre) op) post).settled.isSome = true
        refine txRunFrom_isSome_mono aa post _ ?_
        rcases hkind with ⟨v, hv⟩ | haa
        · subst hv
          exact txStep_opSuccess_settles aa _ v htx
        · subst haa
          cases op with
          | opSuccess v => exact txStep_opSuccess_settles false _ v htx
          | opFailure e => exact txStep_opFailure_settles_noAbort _ e htx
          | commitComplete => simp [isOpSignal] at hop
          | txnError e => simp [isOpSignal] at hop
          | txnAbort e => simp [isOpSignal] at hop
    rw [hinv, if_pos hsome]
  · intro stores sn mode aa e sigs hmem
    simp only [executeTransaction, if_pos hmem]
    have hfroz := txRunFrom_settled_frozen aa sigs (syncThrowEntry aa e)
      (.rejected (some (.unitErr e))) (syncThrowEntry_settled aa e)
    have hinv := txRunFrom_countInv aa sigs (syncThrowEntry aa e)
      (syncThrowEntry_countInv aa e)
    rw [hinv, if_pos (by rw [hfroz]; rfl)]

/-- Witness for the guarded exactly-once theorem: a failing unit of work
followed by the abort event settles exactly once. -/
theorem executeTransaction_settles_exactly_once_guarded_witness :
    ("s" ∈ ["s"]) ∧ isOpSignal (.opFailure 2) = true
    ∧ (executeTransaction ["s"] "s" .readwrite none true .async
        (([] : List Signal) ++ Signal.opFailure 2 :: [Signal.txnAbort none])).state.settleCount
        = 1 :=
  ⟨by decide, by decide,
    executeTransaction_settles_exactly_once_guarded.2.1 ["s"] "s" .readwrite true
      [] [.txnAbort none] (.opFailure 2) (by decide) (by decide)
      (Or.inl ⟨none, Or.inr (by decide)⟩)⟩

/-- C2: the promise never resolves before both the unit-of-work success and
the commit-completed signal have been delivered, and a unit-of-work failure
(asynchronous rejection or synchronous throw) requests an explicit abort of
the transaction whenever abort is available. -/
theorem executeTransaction_resolves_only_after_both :
    ∀ (stores : List String) (sn : String) (mode : IDBMode) (ts : Option Nat)
      (aa : Bool) (cb : CbStart) (sigs : List Signal),
      (∀ v, (executeTransaction stores sn mode ts aa cb sigs).state.settled
            = some (.resolved v) →
          (∃ w, Signal.opSuccess w ∈ sigs) ∧ Signal.commitComplete ∈ sigs)
      ∧ (aa = true → sn ∈ stores → ts = none → (∃ e, Signal.opFailure e ∈ sigs) →
          (executeTransaction stores sn mode ts aa cb sigs).state.abortRequested = true)
      ∧ (∀ e, aa = true → sn ∈ stores → ts = none → cb = .syncThrow e →
          (executeTransaction stores sn mode ts aa cb sigs).state.abortRequested = true) := by
  intro stores sn mode ts aa cb sigs
  refine ⟨?_, ?_, ?_⟩
  · intro v h
    by_cases hmem : sn ∈ stores
    · simp only [executeTransaction, if_pos hmem] at h
      cases ts with
      | some e => simp [pReject, txInit] at h
      | none =>
        cases cb with
        | syncThrow e =>
          rw [txRunFrom_settled_frozen aa sigs (syncThrowEntry aa e)
            (.rejected (some (.unitErr e))) (syncThrowEntry_settled aa e)] at h
          simp at h
        | async =>
          rcases txRunFrom_resolved_requires aa sigs txInit v h with h1 | ⟨hA, hB⟩
          · simp [txInit] at h1
          · constructor
            · rcases hA with ⟨hcb, _⟩ | hex
              · simp [txInit] at hcb
              · exact hex
            · rcases hB with htx | hcm
              · simp [txInit] at htx
              · exact hcm
    · simp only [executeTransaction, if_neg hmem] at h
      simp [pReject, txInit] at h
  · rintro haa hmem hts ⟨e, he⟩
    subst haa
    subst hts
    simp only [executeTransaction, if_pos hmem]
    cases cb with
    | syncThrow e2 => exact txRunFrom_mem_opFailure_abortReq sigs _ e he
    | async => exact txRunFrom_mem_opFailure_abortReq sigs _ e he
  · rintro e haa hmem hts hcb
    subst haa
    subst hts
    subst hcb
    simp only [executeTransaction, if_pos hmem]
    refine txRunFrom_abortReq_mono true sigs _ ?_
    rfl

/-- Witness: a concrete resolved run contains both signals. -/
theorem executeTransaction_resolves_only_after_both_witness :
    ((executeTransaction ["s"] "s" .readonly none true .async
        [.opSuccess 3, .commitComplete]).state.settled = some (.resolved 3))
    ∧ ((∃ w, Signal.opSuccess w ∈ [Signal.opSuccess 3, Signal.commitComplete])
        ∧ Signal.commitComplete ∈ [Signal.opSuccess 3, Signal.commitComplete]) :=
  ⟨by decide,
    (executeTransaction_resolves_only_after_both ["s"] "s" .readonly none true .async
      [.opSuccess 3, .commitComplete]).1 3 (by decide)⟩

/-- C3 counterexample: an asynchronously failing unit of work (rejecting
with error token 5) with abort available makes the promise reject with the
generic abort reason from the onabort handler, not with the unit-of-work
error. -/
theorem executeTransaction_substitutes_abort_error :
    (executeTransaction ["s"] "s" .readwrite none true .async
        [.opFailure 5, .txnAbort none]).state.settled
      = some (.rejected (some .abortedDefault))
    ∧ (Settled.rejected (some .abortedDefault) ≠ .rejected (some (.unitErr 5))) := by
  constructor
  · rfl
  · decide

/-- C3 (amended): a synchronous throw rejects with the thrown error; an
asynchronous failure with abort unavailable rejects with the raised error
once the commit signal arrives; with abort available the rejection carries
the engine abort reason (`transaction.error` when present, the generic
Transaction-aborted error otherwise), not the unit-of-work error. -/
theorem executeTransaction_failure_rejection_reasons :
    (∀ (stores : List String) (sn : String) (mode : IDBMode) (aa : Bool) (e : Nat)
        (sigs : List Signal), sn ∈ stores →
        (executeTransaction stores sn mode none aa (.syncThrow e) sigs).state.settled
          = some (.rejected (some (.unitErr e))))
    ∧ (∀ (stores : List String) (sn : String) (mode : IDBMode) (e : Nat), sn ∈ stores →
        (executeTransaction stores sn mode none false .async
            [.opFailure e, .commitComplete]).state.settled
          = some (.rejected (some (.unitErr e))))
    ∧ (∀ (stores : List String) (sn : String) (mode : IDBMode) (e : Nat) (r : Option Nat),
        sn ∈ stores →
        (executeTransaction stores sn mode none true .async
            [.opFailure e, .txnAbort r]).state.settled
          = some (.rejected (some ((r.map JSErr.engineErr).getD .abortedDefault)))) := by
  refine ⟨?_, ?_, ?_⟩
  · intro stores sn mode aa e sigs hmem
    simp only [executeTransaction, if_pos hmem]
    exact txRunFrom_settled_frozen aa sigs (syncThrowEntry aa e)
      (.rejected (some (.unitErr e))) (syncThrowEntry_settled aa e)
  · intro stores sn mode e hmem
    simp only [executeTransaction, if_pos hmem]
    rfl
  · intro stores sn mode e r hmem
    simp only [executeTransaction, if_pos hmem]
    cases r <;> rfl

/-- Witness for the rejection-reason theorem. -/
theorem executeTransaction_failure_rejection_reasons_witness :
    ("s" ∈ ["s"])
    ∧ (executeTransaction ["s"] "s" .readwrite none true .async
        [.opFailure 9, .txnAbort (some 4)]).state.settled
      = some (.rejected (some (.engineErr 4))) :=
  ⟨by decide,
    executeTransaction_failure_rejection_reasons.2.2 ["s"] "s" .readwrite 9 (some 4)
      (by decide)⟩

/-- C4: a store name absent from the open connection makes
`executeTransaction` reject fast — before any transaction is created, with
an error message naming the missing store, never touching the store list —
and an operation routed through it (`getDataByIdFromStore` with a valid id)
surfaces the same store-not-found error. -/
theorem executeTransaction_missing_store_fails_fast :
    (∀ (stores : List String) (sn : String) (mode : IDBMode) (ts : Option Nat)
        (aa : Bool) (cb : CbStart) (sigs : List Signal), sn ∉ stores →
        (executeTransaction stores sn mode ts aa cb sigs).txnCreated = false
        ∧ (executeTransaction stores sn mode ts aa cb sigs).state.settled
            = some (.rejected (some (.strErr (storeNotFoundMsg sn stores))))
        ∧ (executeTransaction stores sn mode ts aa cb sigs).storesAfter = stores)
    ∧ (∀ (sn : String) (stores : List String),
        ∃ pre post, storeNotFoundMsg sn stores = pre ++ sn ++ post)
    ∧ (∀ (m : StoreMap) (sn : String) (id : IdArg), isValidId id = true →
        lookupStore m sn = none →
        (getDataByIdFromStore m sn id).1
          = .error (.storeNotFound (storeNotFoundMsg sn (storeNames m)))) := by
  refine ⟨?_, ?_, ?_⟩
  · intro stores sn mode ts aa cb sigs hmem
    simp only [executeTransaction, if_neg hmem]
    refine ⟨?_, ?_, ?_⟩ <;> trivial
  · intro sn stores
    refine ⟨"Store " ++ String.singleton (Char.ofNat 39),
      String.singleton (Char.ofNat 39) ++ " not found. Available stores: [" ++
        String.intercalate ", " stores ++ "]", ?_⟩
    simp [storeNotFoundMsg, String.append_assoc]
  · intro m sn id hvalid hnone
    simp only [getDataByIdFromStore]
    rw [if_neg (by simp [hvalid]), hnone]

/-! ## Record lookup lemmas -/

theorem rlookup_append (r1 r2 : Record) (k : String) :
    rlookup (r1 ++ r2) k = optOr (rlookup r1 k) (rlookup r2 k) := by
  induction r1 with
  | nil => rfl
  | cons kv rest ih =>
    obtain ⟨k2, v⟩ := kv
    by_cases hk : k2 = k
    · simp [rlookup, hk, optOr]
    · simp [rlookup, hk, ih]

theorem rlookup_none_of_not_any (r : Record) (k : String)
    (h : r.any (fun kv => kv.1 = k) = false) : rlookup r k = none := by
  induction r with
  | nil => rfl
  | cons kv rest ih =>
    simp only [List.any_cons, Bool.or_eq_false_iff] at h
    obtain ⟨h1, h2⟩ := h
    obtain ⟨k2, v⟩ := kv
    simp only [decide_eq_false_iff_not] at h1
    simp [rlookup, h1, ih h2]

theorem rlookup_mapRset (r : Record) (k : String) (v : FieldVal) :
    rlookup (r.map (fun kv => if kv.1 = k then (k, v) else kv)) k
      = if r.any (fun kv => kv.1 = k) then some v else none := by
  induction r with
  | nil => rfl
  | cons kv rest ih =>
    obtain ⟨k2, w⟩ := kv
    simp only [List.map_cons]
    by_cases hk : k2 = k
    · rw [if_pos hk]
      simp [rlookup, hk, ih]
    · rw [if_neg hk]
      have hd : (decide (k2 = k)) = false := by simp [hk]
      simp only [rlookup, if_neg hk, List.any_cons, hd, Bool.false_or, ih]

theorem rlookup_mapRset_other (r : Record) (k : String) (v : FieldVal) (k2 : String)
    (hk : k2 ≠ k) :
    rlookup (r.map (fun kv => if kv.1 = k then (k, v) else kv)) k2 = rlookup r k2 := by
  induction r with
  | nil => rfl
  | cons kv rest ih =>
    obtain ⟨k3, w⟩ := kv
    simp only [List.map_cons]
    by_cases h3 : k3 = k
    · rw [if_pos h3]
      subst h3
      simp [rlookup, Ne.symm hk, hk, ih]
    · rw [if_neg h3]
      by_cases h4 : k3 = k2 <;> simp [rlookup, h3, h4, ih]

theorem rlookup_rset_self (r : Record) (k : String) (v : FieldVal) :
    rlookup (rset r k v) k = some v := by
  unfold rset
  split
  · next h => rw [rlookup_mapRset, if_pos h]
  · next h =>
    rw [rlookup_append, rlookup_none_of_not_any r k (Bool.eq_false_iff.2 h)]
    simp [rlookup, optOr]

theorem rlookup_rset_other (r : Record) (k : String) (v : FieldVal) (k2 : String)
    (hk : k2 ≠ k) : rlookup (rset r k v) k2 = rlookup r k2 := by
  unfold rset
  split
  · exact rlookup_mapRset_other r k v k2 hk
  · rw [rlookup_append]
    have h1 : rlookup [(k, v)] k2 = none := by
      simp [rlookup, Ne.symm hk]
    rw [h1]
    cases h2 : rlookup r k2 <;> simp [optOr]

theorem rlookup_none_of_not_mem_keys (r : Record) (k : String)
    (h : k ∉ r.map Prod.fst) : rlookup r k = none := by
  induction r with
  | nil => rfl
  | cons kv rest ih =>
    obtain ⟨k2, v⟩ := kv
    simp only [List.map_cons, List.mem_cons, not_or] at h
    obtain ⟨h1, h2⟩ := h
    have hne : k2 ≠ k := fun hh => h1 hh.symm
    simp [rlookup, hne, ih h2]

theorem rlookup_spread (b u : Record) (k : String)
    (hnodup : (u.map Prod.fst).Nodup) :
    rlookup (spread b u) k = optOr (rlookup u k) (rlookup b k) := by
  induction u generalizing b with
  | nil => simp [spread, rlookup, optOr]
  | cons kv rest ih =>
    obtain ⟨k1, v1⟩ := kv
    simp only [List.map_cons, List.nodup_cons] at hnodup
    obtain ⟨hk1, hrest⟩ := hnodup
    have hsp : spread b ((k1, v1) :: rest) = spread (rset b k1 v1) rest := rfl
    rw [hsp, ih (rset b k1 v1) hrest]
    by_cases hk : k = k1
    · subst hk
      rw [rlookup_none_of_not_mem_keys rest k hk1, rlookup_rset_self]
      simp [rlookup, optOr]
    · rw [rlookup_rset_other b k1 v1 k hk]
      simp [rlookup, Ne.symm hk]

/-- C7: for every valid id, `updateDataByIdInStore` returns `null` without
throwing when the id is absent from the store, and on a present id returns
the merged record — the stored record overlaid with the supplied partial
fields, the normalized id preserved. -/
theorem updateDataByIdInStore_null_or_merged :
    ∀ (m : StoreMap) (sn : String) (id : IdArg) (upd : Record) (recs : List Record),
      isValidId id = true → lookupStore m sn = some recs →
      (upd.map Prod.fst).Nodup →
      (storeGet recs (normalizeId (idArgToJSId id)) = none →
        updateDataByIdInStore m sn id upd true = (.ok none, m, []))
      ∧ (∀ stored, storeGet recs (normalizeId (idArgToJSId id)) = some stored →
          ∃ merged,
            updateDataByIdInStore m sn id upd true
              = (.ok (some merged), setStore m sn (storePut recs merged),
                 [.evUpdate merged])
            ∧ rlookup merged "id" = some (idToField (normalizeId (idArgToJSId id)))
            ∧ ∀ k, k ≠ "id" →
                rlookup merged k = optOr (rlookup upd k) (rlookup stored k)) := by
  intro m sn id upd recs hvalid hlook hnodup
  constructor
  · intro habs
    simp [updateDataByIdInStore, hvalid, hlook, habs]
  · intro stored hst
    refine ⟨rset (spread stored upd) "id" (idToField (normalizeId (idArgToJSId id))),
      ?_, ?_, ?_⟩
    · simp [updateDataByIdInStore, hvalid, hlook, hst]
    · exact rlookup_rset_self _ _ _
    · intro k hk
      rw [rlookup_rset_other _ _ _ _ hk]
      exact rlookup_spread stored upd k hnodup

/-- Witness: updating the record with id 1 by a partial record merges the
fields and keeps the id; updating the absent id 2 yields null. -/
theorem updateDataByIdInStore_null_or_merged_witness :
    (isValidId (.jid (.num (.int 2))) = true
      ∧ lookupStore [("s", [[("id", FieldVal.vnum (.int 1)), ("a", FieldVal.vstr "x")]])] "s"
          = some [[("id", FieldVal.vnum (.int 1)), ("a", FieldVal.vstr "x")]]
      ∧ storeGet [[("id", FieldVal.vnum (.int 1)), ("a", FieldVal.vstr "x")]]
          (normalizeId (idArgToJSId (.jid (.num (.int 2))))) = none)
    ∧ updateDataByIdInStore [("s", [[("id", FieldVal.vnum (.int 1)), ("a", FieldVal.vstr "x")]])]
        "s" (.jid (.num (.int 2))) [("a", FieldVal.vstr "y")] true
        = (.ok none, [("s", [[("id", FieldVal.vnum (.int 1)), ("a", FieldVal.vstr "x")]])], []) :=
  ⟨⟨by decide, by decide, by decide⟩,
    (updateDataByIdInStore_null_or_merged
      [("s", [[("id", FieldVal.vnum (.int 1)), ("a", FieldVal.vstr "x")]])] "s"
      (.jid (.num (.int 2))) [("a", FieldVal.vstr "y")]
      [[("id", FieldVal.vnum (.int 1)), ("a", FieldVal.vstr "x")]]
      (by decide) (by decide) (by decide)).1 (by decide)⟩

/-! ## generateNextId freshness and batch id assignment -/

theorem finiteNumericIds_append (a b : List Record) :
    finiteNumericIds (a ++ b) = finiteNumericIds a ++ finiteNumericIds b := by
  simp [finiteNumericIds, List.filterMap_append]

theorem mem_finiteNumericIds (recs : List Record) (r : Record) (k : Int)
    (hr : r ∈ recs) (hid : rlookup r "id" = some (.vnum (.int k))) :
    k ∈ finiteNumericIds recs := by
  rw [finiteNumericIds, List.mem_filterMap]
  exact ⟨r, hr, by rw [hid]; rfl⟩

theorem foldl_max_le (xs : List Int) (a : Int) :
    a ≤ xs.foldl max a ∧ ∀ x ∈ xs, x ≤ xs.foldl max a := by
  induction xs generalizing a with
  | nil => exact ⟨le_refl _, by simp⟩
  | cons y ys ih =>
    obtain ⟨h1, h2⟩ := ih (max a y)
    refine ⟨le_trans (le_max_left a y) h1, ?_⟩
    intro x hx
    rcases List.mem_cons.1 hx with h3 | h3
    · subst h3; exact le_trans (le_max_right a x) h1
    · exact h2 x h3

theorem listMax_ge (l : List Int) : ∀ x ∈ l, x ≤ listMax l := by
  cases l with
  | nil => simp
  | cons x xs =>
    intro y hy
    rcases List.mem_cons.1 hy with h | h
    · subst h; exact (foldl_max_le xs y).1
    · exact (foldl_max_le xs x).2 y h

theorem firstGapFrom_not_mem (ids : List Int) :
    ∀ (fuel i : Nat) (k : Int), firstGapFrom ids i fuel = some k → k ∉ ids := by
  intro fuel
  induction fuel with
  | zero =>
    intro i k h
    simp [firstGapFrom] at h
  | succ f ih =>
    intro i k h
    simp only [firstGapFrom] at h
    split at h
    · exact ih (i + 1) k h
    · next hc =>
      injection h with h2
      subst h2
      intro hmem
      exact hc (by simpa using hmem)

theorem generateNextId_fresh (data : List Record) :
    ∃ k : Int, generateNextId data = .num (.int k) ∧ k ∉ finiteNumericIds data := by
  cases data with
  | nil => exact ⟨1, rfl, by simp [finiteNumericIds]⟩
  | cons r rest =>
    simp only [generateNextId]
    by_cases he : (finiteNumericIds (r :: rest)).isEmpty = true
    · rw [if_pos he]
      refine ⟨1, rfl, ?_⟩
      rw [List.isEmpty_iff] at he
      rw [he]
      simp
    · rw [if_neg he]
      cases hg : firstGapFrom (finiteNumericIds (r :: rest)) 1
          (finiteNumericIds (r :: rest)).length with
      | some i =>
        exact ⟨i, rfl, firstGapFrom_not_mem _ _ _ _ hg⟩
      | none =>
        refine ⟨listMax (finiteNumericIds (r :: rest)) + 1, rfl, ?_⟩
        intro hmem
        have := listMax_ge _ _ hmem
        omega

theorem addManyLoop_invariant (existing : List Record) :
    ∀ (items acc : List Record) (evs : List Event),
      (∀ item ∈ items, isValidIdField (rlookup item "id") = false) →
      (∀ r ∈ acc, ∃ k : Int, rlookup r "id" = some (.vnum (.int k))
          ∧ k ∉ finiteNumericIds existing) →
      ((acc.map (fun r => rlookup r "id")).Pairwise (· ≠ ·)) →
      (∀ r ∈ (addManyLoop existing acc evs items).1, ∃ k : Int,
          rlookup r "id" = some (.vnum (.int k)) ∧ k ∉ finiteNumericIds existing)
      ∧ (((addManyLoop existing acc evs items).1.map
            (fun r => rlookup r "id")).Pairwise (· ≠ ·)) := by
  intro items
  induction items with
  | nil =>
    intro acc evs hitems hacc hpw
    exact ⟨hacc, hpw⟩
  | cons item rest ih =>
    intro acc evs hitems hacc hpw
    have hitem : isValidIdField (rlookup item "id") = false :=
      hitems item (List.mem_cons_self _ _)
    obtain ⟨k, hkeq, hknot⟩ := generateNextId_fresh (existing ++ acc)
    rw [finiteNumericIds_append] at hknot
    simp only [List.mem_append, not_or] at hknot
    obtain ⟨hkex, hkacc⟩ := hknot
    have hstep : addManyLoop existing acc evs (item :: rest)
        = addManyLoop existing
            (acc ++ [rset item "id" (idToField (.num (.int k)))])
            (evs ++ [.evAdd (rset item "id" (idToField (.num (.int k))))]) rest := by
      simp only [addManyLoop]
      rw [if_neg (by simp [hitem]), hkeq]
    rw [hstep]
    have hid_new : rlookup (rset item "id" (idToField (.num (.int k)))) "id"
        = some (.vnum (.int k)) := rlookup_rset_self _ _ _
    apply ih
    · intro it hit
      exact hitems it (List.mem_cons_of_mem _ hit)
    · intro r hr
      rcases List.mem_append.1 hr with h1 | h1
      · exact hacc r h1
      · simp only [List.mem_singleton] at h1
        subst h1
        exact ⟨k, hid_new, hkex⟩
    · rw [List.map_append]
      rw [List.pairwise_append]
      refine ⟨hpw, by simp, ?_⟩
      intro a ha b hb
      simp only [List.map_cons, List.map_nil, List.mem_singleton] at hb
      subst hb
      obtain ⟨r, hr, har⟩ := List.mem_map.1 ha
      obtain ⟨j, hj_eq, hj_not⟩ := hacc r hr
      have hjacc : j ∈ finiteNumericIds acc := mem_finiteNumericIds acc r j hr hj_eq
      have hjk : j ≠ k := by
        intro heq
        subst heq
        exact hkacc hjacc
      rw [← har, hj_eq, hid_new]
      intro heq
      simp only [Option.some.injEq] at heq
      injection heq with heq2
      injection heq2 with heq3
      exact hjk heq3

/-- C5: every record of a batch submitted to `addManyToStore` without a
valid explicit id receives a generated id; the generated ids are pairwise
distinct and avoid every finite numeric id already present in the store,
because each generation step runs on the pre-existing records plus the
batch records processed so far. -/
theorem addManyToStore_generated_ids_distinct :
    ∀ (m : StoreMap) (sn : String) (recs items : List Record),
      lookupStore m sn = some recs →
      (∀ item ∈ items, isValidIdField (rlookup item "id") = false) →
      (((addManyLoop recs [] [] items).1.map (fun r => rlookup r "id")).Pairwise (· ≠ ·))
      ∧ (∀ r ∈ (addManyLoop recs [] [] items).1, ∃ k : Int,
          rlookup r "id" = some (.vnum (.int k)) ∧ k ∉ finiteNumericIds recs)
      ∧ addManyToStore m sn items true
          = (true, setStore m sn ((addManyLoop recs [] [] items).1.foldl storePut recs),
             (addManyLoop recs [] [] items).2) := by
  intro m sn recs items hlook hitems
  obtain ⟨h1, h2⟩ := addManyLoop_invariant recs items [] [] hitems (by simp) (by simp)
  exact ⟨h2, h1, by simp [addManyToStore, hlook]⟩

/-- Witness: a two-record batch without explicit ids over a store already
holding id 1 gets the distinct fresh ids. -/
theorem addManyToStore_generated_ids_distinct_witness :
    (lookupStore [("s", [[("id", FieldVal.vnum (.int 1))]])] "s"
        = some [[("id", FieldVal.vnum (.int 1))]])
    ∧ ((((addManyLoop [[("id", FieldVal.vnum (.int 1))]] [] []
          [[("a", FieldVal.vstr "x")], [("b", FieldVal.vstr "y")]]).1.map
            (fun r => rlookup r "id")).Pairwise (· ≠ ·))) :=
  ⟨by decide,
    (addManyToStore_generated_ids_distinct [("s", [[("id", FieldVal.vnum (.int 1))]])] "s"
      [[("id", FieldVal.vnum (.int 1))]]
      [[("a", FieldVal.vstr "x")], [("b", FieldVal.vstr "y")]]
      (by decide) (by decide)).1⟩

/-! ## Event emission -/

theorem addManyLoop_events_length (existing : List Record) :
    ∀ (items acc : List Record) (evs : List Event),
      (addManyLoop existing acc evs items).2.length = evs.length + items.length := by
  intro items
  induction items with
  | nil =>
    intro acc evs
    simp [addManyLoop]
  | cons item rest ih =>
    intro acc evs
    simp only [addManyLoop]
    split
    · rw [ih]
      simp only [List.length_append, List.length_cons, List.length_nil]
      omega
    · rw [ih]
      simp only [List.length_append, List.length_cons, List.length_nil]
      omega

/-- C6 counterexample: deleting an id that is absent from the store
succeeds, leaves the store unchanged (zero records logically affected) and
still emits one delete notification. -/
theorem deleteDataFromStore_emits_without_affected_record :
    (deleteDataFromStore [("s", [])] "s" (.jid (.num (.int 5))) true).1
        = .ok (.num (.int 5))
    ∧ (deleteDataFromStore [("s", [])] "s" (.jid (.num (.int 5))) true).2.1 = [("s", [])]
    ∧ (deleteDataFromStore [("s", [])] "s" (.jid (.num (.int 5))) true).2.2
        = [.evDelete (.num (.int 5))] := by
  refine ⟨?_, ?_, ?_⟩ <;> rfl

/-- C6 (amended): successful save emits exactly one event; update-by-id
emits one event per updated record and none when the id is absent — but
emits it at put-success, hence even when the transaction then fails;
delete operations emit one event per requested id whether or not a record
existed; clear emits exactly one event even when the transaction then
fails; the batch operations emit one event per submitted record on success
and none on failure; operations failing on an invalid id or a missing
store emit nothing. -/
theorem mutation_event_emission :
    (∀ (m : StoreMap) (sn : String) (data : Record) (autoId : Int) (recs : List Record),
        lookupStore m sn = some recs →
        (saveDataToStore m sn data autoId true).2.2.length = 1
        ∧ (saveDataToStore m sn data autoId false).2.2 = [])
    ∧ (∀ (m : StoreMap) (sn : String) (id : IdArg) (upd : Record) (recs : List Record),
        isValidId id = true → lookupStore m sn = some recs →
        (storeGet recs (normalizeId (idArgToJSId id)) = none →
          ∀ c, (updateDataByIdInStore m sn id upd c).2.2 = [])
        ∧ (∀ stored, storeGet recs (normalizeId (idArgToJSId id)) = some stored →
            ∀ c, (updateDataByIdInStore m sn id upd c).2.2.length = 1))
    ∧ (∀ (m : StoreMap) (sn : String) (id : IdArg) (recs : List Record),
        isValidId id = true → lookupStore m sn = some recs →
        (deleteDataFromStore m sn id true).2.2
            = [.evDelete (normalizeId (idArgToJSId id))]
        ∧ (deleteDataFromStore m sn id false).2.2 = [])
    ∧ (∀ (m : StoreMap) (sn : String) (recs : List Record),
        lookupStore m sn = some recs →
        ∀ c, (clearStore m sn c).2.2 = [.evClear])
    ∧ (∀ (m : StoreMap) (sn : String) (items recs : List Record),
        lookupStore m sn = some recs →
        (addManyToStore m sn items true).2.2.length = items.length
        ∧ (addManyToStore m sn items false).2.2 = [])
    ∧ (∀ (m : StoreMap) (sn : String) (items recs : List Record),
        lookupStore m sn = some recs →
        (updateManyInStore m sn items true).2.2.length = items.length
        ∧ (updateManyInStore m sn items false).2.2 = [])
    ∧ (∀ (m : StoreMap) (sn : String) (ids : List JSId) (recs : List Record),
        lookupStore m sn = some recs →
        (deleteManyFromStore m sn ids true).2.2.length = ids.length
        ∧ (deleteManyFromStore m sn ids false).2.2 = [])
    ∧ (∀ (m : StoreMap) (sn : String) (id : IdArg) (upd : Record) (c : Bool),
        isValidId id = false →
        (deleteDataFromStore m sn id c).2.2 = []
        ∧ (updateDataByIdInStore m sn id upd c).2.2 = []
        ∧ (getDataByIdFromStore m sn id).2.2 = [])
    ∧ (∀ (m : StoreMap) (sn : String) (items : List Record) (ids : List JSId) (c : Bool),
        lookupStore m sn = none →
        (addManyToStore m sn items c).2.2 = []
        ∧ (updateManyInStore m sn items c).2.2 = []
        ∧ (deleteManyFromStore m sn ids c).2.2 = []) := by
  refine ⟨?_, ?_, ?_, ?_, ?_, ?_, ?_, ?_, ?_⟩
  · intro m sn data autoId recs hlook
    by_cases hid : isValidIdField (rlookup data "id") = true
    · constructor <;> simp [saveDataToStore, hid, hlook]
    · constructor <;> simp [saveDataToStore, hid, hlook]
  · intro m sn id upd recs hvalid hlook
    constructor
    · intro habs c
      simp [updateDataByIdInStore, hvalid, hlook, habs]
    · intro stored hst c
      cases c <;> simp [updateDataByIdInStore, hvalid, hlook, hst]
  · intro m sn id recs hvalid hlook
    constructor <;> simp [deleteDataFromStore, hvalid, hlook]
  · intro m sn recs hlook c
    cases c <;> simp [clearStore, hlook]
  · intro m sn items recs hlook
    constructor
    · simp only [addManyToStore, hlook, if_true]
      rw [addManyLoop_events_length]
      simp
    · simp [addManyToStore, hlook]
  · intro m sn items recs hlook
    constructor <;> simp [updateManyInStore, hlook]
  · intro m sn ids recs hlook
    constructor <;> simp [deleteManyFromStore, hlook]
  · intro m sn id upd c hinvalid
    refine ⟨?_, ?_, ?_⟩ <;>
      simp [deleteDataFromStore, updateDataByIdInStore, getDataByIdFromStore, hinvalid]
  · intro m sn items ids c hnone
    refine ⟨?_, ?_, ?_⟩ <;>
      simp [addManyToStore, updateManyInStore, deleteManyFromStore, hnone]

/-- Witness: a successful single delete emits exactly the delete event of
the normalized key. -/
theorem mutation_event_emission_witness :
    (isValidId (.jid (.num (.int 3))) = true
      ∧ lookupStore [("s", [])] "s" = some [])
    ∧ ((deleteDataFromStore [("s", [])] "s" (.jid (.num (.int 3))) true).2.2
          = [.evDelete (normalizeId (idArgToJSId (.jid (.num (.int 3)))))]
      ∧ (deleteDataFromStore [("s", [])] "s" (.jid (.num (.int 3))) false).2.2 = []) :=
  ⟨⟨by decide, by decide⟩,
    mutation_event_emission.2.2.1 [("s", [])] "s" (.jid (.num (.int 3))) []
      (by decide) (by decide)⟩

/-- C10: every invalid identifier (null, undefined, empty or
whitespace-only string, non-finite number, or a value of another type)
makes `getDataByIdFromStore` return null with the stores untouched and
with no database open or transaction started. -/
theorem getDataByIdFromStore_invalid_id :
    (∀ (m : StoreMap) (sn : String) (id : IdArg), isValidId id = false →
        getDataByIdFromStore m sn id = (.ok none, m, ([] : List DBEffect)))
    ∧ isValidId .jnull = false
    ∧ isValidId .jundef = false
    ∧ isValidId (.jid (.str "")) = false
    ∧ isValidId (.jid (.str "   ")) = false
    ∧ isValidId (.jid (.num .nan)) = false
    ∧ isValidId (.jid (.num .inf)) = false
    ∧ isValidId (.jid (.num .negInf)) = false
    ∧ isValidId .jother = false := by
  refine ⟨?_, by decide, by decide, by decide, by decide, by decide, by decide,
    by decide, by decide⟩
  intro m sn id h
  simp only [getDataByIdFromStore]
  rw [if_pos h]

/-- Witness: a null identifier returns null touching nothing. -/
theorem getDataByIdFromStore_invalid_id_witness :
    (isValidId .jnull = false)
    ∧ getDataByIdFromStore [("s", [])] "s" .jnull
        = (.ok none, [("s", [])], ([] : List DBEffect)) :=
  ⟨by decide, getDataByIdFromStore_invalid_id.1 [("s", [])] "s" .jnull (by decide)⟩

/-- C9: a string-valued criterion of `searchDataInStore` matches by
case-insensitive substring containment exactly when it contains the dot
separator and is not one of the fixed status tokens compared
case-insensitively; in every other case it matches by exact
case-insensitive equality — the code heuristic coincides with the
specification wording on all inputs. -/
theorem searchString_criterion_heuristic :
    ∀ (item : Record) (key : String) (v : String),
      entryMatches item key (.vstr v) = specStringCriterion item key v
      ∧ searchMatches [(key, .vstr v)] item = specStringCriterion item key v := by
  intro item key v
  have h1 : entryMatches item key (.vstr v) = specStringCriterion item key v := by
    by_cases hd : v.data.contains '.' = true <;>
      by_cases htok : commonExactValues.contains (lowerStr v) = true <;>
        simp [entryMatches, specStringCriterion, hd, htok]
  exact ⟨h1, by simp [searchMatches, h1]⟩

/-- Witness for the missing-store theorem. -/
theorem executeTransaction_missing_store_fails_fast_witness :
    ("x" ∉ ["s"])
    ∧ ((executeTransaction ["s"] "x" .readonly none true .async []).txnCreated = false
      ∧ (executeTransaction ["s"] "x" .readonly none true .async []).state.settled
          = some (.rejected (some (.strErr (storeNotFoundMsg "x" ["s"]))))
      ∧ (executeTransaction ["s"] "x" .readonly none true .async []).storesAfter = ["s"]) :=
  ⟨by decide,
    executeTransaction_missing_store_fails_fast.1 ["s"] "x" .readonly none true .async []
      (by decide)⟩

end IDB
